import Mathlib

/-!
Verification development for the ABM email generator.

The definitions below are a shallow embedding of the repository's
TypeScript source: the rule validator (`validator.ts`), the JSON
extraction fallback of `EmailGenerator.tsx`, the sequential batch loop,
the in-memory storage adapter (`storage.ts`) and the contact
ranking/selection policy (`ContactSelector.tsx`).

Strings are modelled as their lists of characters; a case-insensitive
regular expression applied to a text is modelled by matching a
lower-case pattern against the lower-cased text (JavaScript
`toLowerCase` agrees with `Char.toLower` on the ASCII and Latin ranges
used by the rulebook).  Character offsets stand for JavaScript string
indices (they agree on all text whose characters lie in the basic
multilingual plane).
-/

set_option maxRecDepth 20000

namespace ABM

/-- JavaScript regex whitespace class `\s` (ASCII part). -/
def isWs (c : Char) : Bool :=
  c == ' ' || c == '\t' || c == '\n' || c == '\r' || c == '\x0b' || c == '\x0c'

/-- JavaScript regex word-character class `\w` = `[A-Za-z0-9_]`. -/
def isWordChar (c : Char) : Bool :=
  c.isAlpha || c.isDigit || c == '_'

/-- JavaScript `toLowerCase` on a list of characters. -/
def lower (l : List Char) : List Char := l.map Char.toLower

/-- JavaScript `String.prototype.includes`: `hay` has `sub` as a
contiguous sublist. -/
def jsIncludes : List Char → List Char → Bool
  | hay, sub =>
    sub.isPrefixOf hay ||
      match hay with
      | [] => false
      | _ :: rest => jsIncludes rest sub

/-- JavaScript `String.prototype.trim` (whitespace from both ends). -/
def jsTrim (l : List Char) : List Char :=
  ((l.dropWhile isWs).reverse.dropWhile isWs).reverse

/-- A nondeterministic pattern matcher: a pattern maps a text to the
list of possible remainders after matching a prefix of the text.  Each
regular expression of the source is translated into one such pattern. -/
def Pat : Type := List Char → List (List Char)

/-- Pattern matching the empty string. -/
def pnil : Pat := fun s => [s]

/-- Pattern matching one character of a class. -/
def pch (p : Char → Bool) : Pat := fun s =>
  match s with
  | [] => []
  | c :: cs => if p c then [cs] else []

/-- Pattern matching a literal string. -/
def plit (lit : String) : Pat := fun s =>
  if lit.data.isPrefixOf s then [s.drop lit.data.length] else []

/-- Sequencing of two patterns. -/
def pseq (a b : Pat) : Pat := fun s => (a s).flatMap b

/-- Alternation of two patterns (regex `|`). -/
def palt (a b : Pat) : Pat := fun s => a s ++ b s

/-- Optional pattern (regex `?`). -/
def popt (a : Pat) : Pat := fun s => a s ++ [s]

/-- One or more characters of a class (regex `+` on a class). -/
def pmany1 (p : Char → Bool) : List Char → List (List Char)
  | [] => []
  | c :: cs => if p c then cs :: pmany1 p cs else []

/-- Zero or more characters of a class (regex `*` on a class). -/
def pmany0 (p : Char → Bool) : Pat := fun s => pmany1 p s ++ [s]

/-- Sequencing of a list of patterns. -/
def pcat (ps : List Pat) : Pat := ps.foldr pseq pnil

/-- Trailing word boundary `\b` after a word character: the remainder
must be empty or start with a non-word character. -/
def pend : Pat := fun s =>
  match s with
  | [] => [[]]
  | c :: _ => if isWordChar c then [] else [s]

/-- A pattern matches at the start of `s` when some parse succeeds. -/
def matchesAt (p : Pat) (s : List Char) : Bool := !(p s).isEmpty

/-- Whether a position is at a word boundary given the previous
character (`none` at the start of the text).  All the source's
boundary-anchored patterns begin with a word character, so the
boundary holds exactly when the previous character is not one. -/
def bOk : Option Char → Bool
  | none => true
  | some c => !isWordChar c

/-- Index of the first match of a `\b`-anchored pattern, scanning
positions left to right (JavaScript `RegExp.exec().index`). -/
def firstIdxBFrom (p : Pat) : Option Char → Nat → List Char → Option Nat
  | prev, i, [] => if bOk prev && matchesAt p [] then some i else none
  | prev, i, t@(c :: cs) =>
    if bOk prev && matchesAt p t then some i
    else firstIdxBFrom p (some c) (i + 1) cs

/-- Index of the first match of a `\b`-anchored pattern in `t`. -/
def firstIdxB (p : Pat) (t : List Char) : Option Nat :=
  firstIdxBFrom p none 0 t

/-- JavaScript `RegExp.test` for a `\b`-anchored pattern. -/
def existsMatchB (p : Pat) (t : List Char) : Bool :=
  (firstIdxB p t).isSome

/-- JavaScript `RegExp.test` for an unanchored pattern: some suffix
matches. -/
def existsMatch (p : Pat) : List Char → Bool
  | [] => matchesAt p []
  | t@(_ :: cs) => matchesAt p t || existsMatch p cs

/-- Characters of the dash class `[—–-]` used by the source's regexes. -/
def isDash (c : Char) : Bool := c == '—' || c == '–' || c == '-'

/-- Whitespace run `\s+`. -/
def pws1 : Pat := fun s => pmany1 isWs s

/-- Optional whitespace run `\s*`. -/
def pws0 : Pat := pmany0 isWs

/-!
Embedding of `src/lib/email-generator/validator.ts`.
-/

mutual

/-- JavaScript `split(/\s+/)` main state: building the current token
(accumulated in reverse). -/
def jsSplitWsGo (acc : List Char) : List Char → List (List Char)
  | [] => [acc.reverse]
  | c :: cs =>
    if isWs c then acc.reverse :: jsSplitWsSkip cs
    else jsSplitWsGo (c :: acc) cs

/-- JavaScript `split(/\s+/)` separator state: skipping a whitespace
run. -/
def jsSplitWsSkip : List Char → List (List Char)
  | [] => [[]]
  | c :: cs => if isWs c then jsSplitWsSkip cs else jsSplitWsGo [c] cs

end

/-- JavaScript `text.split(/\s+/)`. -/
def jsSplitWs (l : List Char) : List (List Char) := jsSplitWsGo [] l

/-- Source `countWords`:
`text.trim().split(/\s+/).filter(w => w.length > 0).length`. -/
def countWords (s : String) : Nat :=
  ((jsSplitWs (jsTrim s.data)).filter (fun w => w.length > 0)).length

/-- Source `uncontractedPatterns`: each is `/\bX\b/i` for a literal
two-word phrase `X`. -/
def uncontractedPatterns : List Pat :=
  [pcat [plit "i am", pend],
   pcat [plit "i have", pend],
   pcat [plit "you are", pend],
   pcat [plit "we are", pend],
   pcat [plit "they are", pend],
   pcat [plit "it is", pend],
   pcat [plit "that is", pend],
   pcat [plit "what is", pend],
   pcat [plit "there is", pend],
   pcat [plit "here is", pend],
   pcat [plit "do not", pend],
   pcat [plit "can not", pend],
   pcat [plit "will not", pend],
   pcat [plit "would not", pend],
   pcat [plit "could not", pend],
   pcat [plit "should not", pend]]

/-- Source `hasContractionIssues`. -/
def hasContractionIssues (s : String) : Bool :=
  uncontractedPatterns.any (fun p => existsMatchB p (lower s.data))

/-- Regex fragment `500,?000\+?`. -/
def p500k : Pat := pcat [plit "500", popt (plit ","), plit "000", popt (plit "+")]

/-- Source `validIntros` of `hasValidKlasIntro`, in order. -/
def validIntros : List Pat :=
  [pcat [plit "klas", pws1, plit "research", pch isDash, plit "which", pws1,
         plit "surveyed", pws1, p500k, pws1, plit "clinicians"],
   pcat [plit "klas", pws1, plit "research", popt (plit ","), pws1, plit "which", pws1,
         plit "surveyed", pws1, p500k, pws1, plit "clinicians"],
   pcat [plit "according", pws1, plit "to", pws1, plit "klas", pws1, plit "research",
         pch isDash, plit "the", pws1, plit "healthcare"],
   pcat [plit "surveyed", pws1, plit "by", pws1, plit "klas", pws1, plit "research",
         pws0, plit "(", p500k, pws1, plit "clinicians"],
   pcat [plit "from", pws1, plit "klas", pws1, plit "research",
         pws0, plit "(", p500k, pws1, plit "clinicians"],
   pcat [plit "from", pws1, plit "klas", pws1, plit "research.", pws1, plit "according",
         pws1, plit "to", pws1, plit "their", pws1, plit "study", pws1, plit "of", pws1,
         p500k, pws1, plit "clinicians"]]

/-- Source `badPatterns` of `hasValidKlasIntro`: each regex is anchored
`/^[^.]*.../i`, so the shorthand must occur before the first period. -/
def badKlasPatterns : List Pat :=
  [pcat [pmany0 (fun c => !(c == '.')), plit "klas", pws1, plit "data", pws1, plit "shows"],
   pcat [pmany0 (fun c => !(c == '.')), plit "the", pws1, plit "klas", pws1, plit "study"],
   pcat [pmany0 (fun c => !(c == '.')), plit "klas", pws1, plit "shows"],
   pcat [pmany0 (fun c => !(c == '.')), plit "klas", pws1, plit "research", pws1, plit "shows"]]

/-- Source `hasValidKlasIntro`. -/
def hasValidKlasIntro (s : String) : Bool :=
  let t := lower s.data
  if !(jsIncludes t "klas".data) then true
  else
    let hasProperIntro := validIntros.any (fun p => existsMatch p t)
    if !hasProperIntro then !(badKlasPatterns.any (fun p => matchesAt p t))
    else hasProperIntro

/-- Source `classPatterns` of `hasValidWeTiming`, in order. -/
def classPatterns : List Pat :=
  [pcat [plit "about class", pch (fun c => isDash c || c == ',' || c == '.' || isWs c)],
   pcat [plit "class", pmany1 (fun c => isDash c || isWs c), plit "a", pws1, plit "virtual"],
   pcat [plit "class", pws1, plit "is", pws1, plit "built"],
   pcat [plit "using class", pend],
   pcat [plit "class", pws1, plit "helps", pend],
   pcat [plit "class", pws1, plit "provides", pend],
   pcat [plit "class", pws1, plit "gives", pend],
   pcat [plit "class", pws1, plit "lets", pend],
   pcat [plit "class", pws1, plit "turns", pend],
   pcat [plit "class", pws1, plit "adds", pend],
   pcat [plit "with class", pend]]

/-- One iteration of the source loop computing `classPosition`:
`if (match && (classPosition === -1 || match.index < classPosition))
classPosition = match.index`. -/
def cpStep (t : List Char) (cp : Int) (p : Pat) : Int :=
  match firstIdxB p t with
  | some i => if cp == -1 || (i : Int) < cp then (i : Int) else cp
  | none => cp

/-- Source loop computing `classPosition` (`-1` when no pattern
matches, else the smallest first-match index over the patterns). -/
def classPosition (t : List Char) : Int :=
  classPatterns.foldl (cpStep t) (-1)

/-- The plural-pronoun regex `\b(we|we're|we've|we'll|our)\b` (its
leading `\b` is handled by the scanning context). -/
def wePat : Pat :=
  pcat [palt (plit "we")
          (palt (plit "we're") (palt (plit "we've") (palt (plit "we'll") (plit "our")))),
        pend]

/-- Scan of the source's `while` loop over the pronoun matches: true
when some match position `i` satisfies
`classPosition === -1 || i < classPosition`.  The source iterates the
non-overlapping `/g` matches only, but that is equivalent: the tested
condition holds at some match position exactly when it holds at the
leftmost one, which the `/g` scan always visits first. -/
def weViolationFrom (cp : Int) : Option Char → Nat → List Char → Bool
  | _, _, [] => false
  | prev, i, t@(c :: cs) =>
    (bOk prev && matchesAt wePat t && (cp == -1 || decide ((i : Int) < cp)))
      || weViolationFrom cp (some c) (i + 1) cs

/-- Source `hasValidWeTiming`. -/
def hasValidWeTiming (s : String) : Bool :=
  let t := lower s.data
  let cp := classPosition t
  !(weViolationFrom cp none 0 t)

/-- Weekday alternation `(monday|tuesday|wednesday|thursday|friday)`. -/
def pWeekday : Pat :=
  palt (plit "monday")
    (palt (plit "tuesday") (palt (plit "wednesday") (palt (plit "thursday") (plit "friday"))))

/-- Source `bannedPatterns` of `hasValidCta`, in order. -/
def ctaBannedPatterns : List Pat :=
  [pcat [plit "20", pws0, plit "minute", popt (plit "s")],
   pcat [plit "15", pws0, plit "minute", popt (plit "s")],
   pcat [plit "does", pws1, pWeekday, pws1, plit "work"],
   pcat [plit "would", pws1, pWeekday, pws1, plit "work"],
   pcat [plit "can", pws1, plit "we", pws1, plit "schedule"],
   pcat [plit "i", pws1, plit "genuinely", pws1, plit "don't", pws1, plit "know", pws1,
         plit "if", pws1, plit "class", pws1, plit "is", pws1, plit "right"],
   pcat [plit "happy", pws1, plit "to", pws1, plit "share", pws1, plit "over", pws1,
         plit "email", pws1, plit "if", pws1, plit "easier"],
   pcat [plit "no", pws1, plit "meeting", pws1, plit "required"]]

/-- Source `hasValidCta`. -/
def hasValidCta (s : String) : Bool :=
  !(ctaBannedPatterns.any (fun p => existsMatch p (lower s.data)))

/-- Source `warmthPatterns`, in order. -/
def warmthPatterns : List Pat :=
  [pcat [plit "even", pws1, plit "if", pws1, popt (pcat [plit "the", pws1]),
         plit "timing", pws1, plit "isn't", pws1, plit "right"],
   pcat [plit "even", pws1, plit "if", pws1, plit "class", pws1, plit "isn't", pws1,
         plit "the", pws1, plit "right", pws1, plit "solution"],
   pcat [plit "even", pws1, plit "if", pws1, plit "now", pws1, plit "isn't", pws1,
         plit "the", pws1, plit "right", pws1, plit "time"],
   pcat [plit "i", pws1, plit "hope", pws1, plit "this", pws1, plit "data", pws1,
         plit "is", pws1, plit "useful"],
   pcat [plit "i", pws1, plit "hope", pws1, plit "these", pws1, plit "findings", pws1,
         plit "are", pws1, plit "useful"],
   pcat [plit "the", pws1, plit "klas", pws1, plit "research", pws1, plit "might", pws1,
         plit "be", pws1, plit "useful"],
   pcat [plit "this", pws1, plit "research", pws1, plit "might", pws1, plit "be", pws1,
         plit "useful"],
   pcat [plit "i", pws1, plit "appreciate", pws1, plit "you're", pws1, plit "managing",
         pws1, plit "a", pws1, plit "lot"],
   pcat [plit "these", pws1, plit "findings", pws1, plit "will", pws1, plit "still",
         pws1, plit "be", pws1, plit "relevant"]]

/-- Source `hasWarmthPhrase` (required only for email 3). -/
def hasWarmthPhrase (s : String) (emailNumber : Nat) : Bool :=
  if emailNumber != 3 then true
  else warmthPatterns.any (fun p => existsMatch p (lower s.data))

/-- Source `bannedPhrases` table of `hasBannedPhrases`: pattern and
description, in order. -/
def bannedPhrases : List (Pat × String) :=
  [(pcat [plit "competency", pws1, plit "verification"],
    "Use \"embedded assessments\" instead of \"competency verification\""),
   (pcat [plit "hands", popt (plit "-"), plit "on", pws1, plit "ehr", pws1,
          plit "practice", pws1, plit "environment"],
    "Class is not an EHR simulator"),
   (pcat [plit "single", pws1, plit "dashboard", pws1, plit "across", pws1, plit "your",
          pws1, plit "entire", pws1, plit "network"],
    "Overstated feature claim"),
   (pcat [plit "no", pws1, plit "new", pws1, plit "infrastructure", pws1, plit "to",
          pws1, plit "learn"],
    "Users need Class training"),
   (pcat [plit "deployment", pws1, plit "layer"],
    "Confusing terminology"),
   (pcat [plit "overwhelming", pws1, plit "the", pws1, plit "education", pws1,
          plit "infrastructure"],
    "Vague wording"),
   (pcat [plit "one", pws1, plit "more", pws1, plit "thought"],
    "Feels pestering"),
   (pcat [plit "i", pws1, plit "keep", pws1, plit "wondering"],
    "Forced personalization"),
   (pcat [plit "january", pws1, plit "session", popt (plit "s")],
    "Too immediate timing reference"),
   (pcat [plit "run", popt (plit "s"), pws1, plit "on", pws1, plit "your", pws1,
          plit "existing", pws1, plit "zoom"],
    "Use \"built for Zoom\" instead")]

/-- Source `hasBannedPhrases`: the descriptions of the banned patterns
found in the text, in table order. -/
def hasBannedPhrases (s : String) : List String :=
  (bannedPhrases.filter (fun pd => existsMatch pd.1 (lower s.data))).map Prod.snd

/-- JavaScript `split('\n')` (literal separator). -/
def splitNl : List Char → List (List Char)
  | [] => [[]]
  | c :: cs =>
    if c == '\n' then [] :: splitNl cs
    else
      match splitNl cs with
      | [] => [[c]]
      | t :: ts => (c :: t) :: ts

/-- Source `hasValidSignature`: the trimmed last line of the trimmed
body must equal `dalton` case-insensitively. -/
def hasValidSignature (s : String) : Bool :=
  let lines := splitNl (jsTrim s.data)
  let lastLine := jsTrim (lines.getLastD [])
  lower lastLine == "dalton".data

/-- The `EmailVariant` object of `schemas.ts` (the fields used by the
validator). -/
structure EmailVariant where
  variant_id : String
  email_number : Nat
  subject_line : String
  body : String
  word_count : Nat
  angle : String
deriving DecidableEq, Repr

/-- The `ValidationResult` interface of `validator.ts`.  The `checks`
record is modelled as an association list in insertion order. -/
structure ValidationResult where
  passed : Bool
  checks : List (String × Bool)
  failures : List String
  suggestions : List String
deriving DecidableEq, Repr

/-- Source `validateEmail`: the nine checks, with the failure and
suggestion messages pushed in source order. -/
def validateEmail (email : EmailVariant) : ValidationResult :=
  let wordCount := countWords email.body
  let wcValid := decide (150 ≤ wordCount) && decide (wordCount ≤ 200)
  let contractionsOk := !(hasContractionIssues email.body)
  let klasOk := hasValidKlasIntro email.body
  let weOk := hasValidWeTiming email.body
  let ctaOk := hasValidCta email.body
  let warmthOk := hasWarmthPhrase email.body email.email_number
  let bannedFound := hasBannedPhrases email.body
  let noBanned := bannedFound.length == 0
  let sigOk := hasValidSignature email.body
  let subjOk := !("re:".data.isPrefixOf (lower email.subject_line.data))
  let failures :=
    (if wcValid then [] else
      ["Word count " ++ toString wordCount ++ " outside range 150-200"])
    ++ (if contractionsOk then [] else
      ["Uncontracted phrases detected (e.g., \"I am\" instead of \"I'm\")"])
    ++ (if klasOk then [] else ["KLAS mentioned without proper introduction"])
    ++ (if weOk then [] else ["\"We\" used before Class was introduced"])
    ++ (if ctaOk then [] else
      ["CTA contains banned patterns (e.g., \"20 minutes\", specific day/time)"])
    ++ (if warmthOk then [] else ["Email 3 missing warmth phrase"])
    ++ (if noBanned then [] else
      ["Banned phrases found: " ++ toString bannedFound.length])
    ++ (if sigOk then [] else ["Email not signed \"Dalton\" on last line"])
    ++ (if subjOk then [] else ["Subject line starts with \"Re:\""])
  let suggestions :=
    (if wcValid then [] else
      if wordCount < 150 then
        ["Add " ++ toString (150 - wordCount) ++ " more words to meet minimum"]
      else
        ["Remove " ++ toString (wordCount - 200) ++ " words to meet maximum"])
    ++ (if contractionsOk then [] else
      ["Use contractions: I'm, you're, that's, it's, can't, won't, don't"])
    ++ (if klasOk then [] else
      ["First KLAS mention must include: \"KLAS Research—which surveyed 500,000+ clinicians across 300 healthcare organizations—found that...\""])
    ++ (if weOk then [] else
      ["Introduce Class by name before using \"we\": \"That's why I'm reaching out about Class—a virtual classroom platform. The challenge we hear...\""])
    ++ (if ctaOk then [] else
      ["Use conversational CTAs: \"Is it worth a quick conversation? Let me know when works best for you.\""])
    ++ (if warmthOk then [] else
      ["Add warmth phrase: \"Even if the timing isn't right over the next few months, I hope these findings are useful context for your planning.\""])
    ++ (if noBanned then [] else bannedFound)
    ++ (if sigOk then [] else ["End email with just \"Dalton\" (first name only)"])
    ++ (if subjOk then [] else ["Each email needs a unique subject line, no \"Re:\" prefix"])
  { passed := failures.length == 0
    checks :=
      [("word_count_valid", wcValid),
       ("contractions_used", contractionsOk),
       ("klas_intro_valid", klasOk),
       ("we_timing_valid", weOk),
       ("cta_valid", ctaOk),
       ("warmth_phrase_valid", warmthOk),
       ("no_banned_phrases", noBanned),
       ("signature_valid", sigOk),
       ("subject_valid", subjOk)]
    failures := failures
    suggestions := suggestions }

/-- Source `expectedAngles` of `validateSequence`. -/
def expectedAngles : List String := ["timing", "challenge", "outcome"]

/-- JavaScript `actual.every((a, i) => a === expected[i])`: indexing
past the end yields `undefined`, which an angle string never equals. -/
def everyIdxEq : List String → List String → Bool
  | [], _ => true
  | _ :: _, [] => false
  | a :: as, e :: es => a == e && everyIdxEq as es

/-- JavaScript object property assignment on an association list:
replace the value when the key exists, else append. -/
def objSet (m : List (String × Bool)) (k : String) (v : Bool) : List (String × Bool) :=
  if m.any (fun kv => kv.1 == k) then
    m.map (fun kv => if kv.1 == k then (k, v) else kv)
  else m ++ [(k, v)]

/-- One iteration of the source's per-email loop in `validateSequence`:
merge the email's check results (namespaced by ordinal) and, when the
email fails, its combined failure message and prefixed suggestions. -/
def seqStep (acc : List (String × Bool) × List String × List String)
    (e : EmailVariant) : List (String × Bool) × List String × List String :=
  let r := validateEmail e
  let checks := r.checks.foldl
    (fun m kv => objSet m ("E" ++ toString e.email_number ++ "_" ++ kv.1) kv.2) acc.1
  let fails :=
    if !r.passed then
      acc.2.1 ++ ["Email " ++ toString e.email_number ++ ": "
        ++ String.intercalate "; " r.failures]
    else acc.2.1
  let suggs :=
    if !r.passed then
      acc.2.2 ++ r.suggestions.map (fun sg => "E" ++ toString e.email_number ++ ": " ++ sg)
    else acc.2.2
  (checks, fails, suggs)

/-- Source `validateSequence`: length check, angle-order check, then
the per-email results merged in, namespaced by ordinal. -/
def validateSequence (emails : List EmailVariant) : ValidationResult :=
  let lenFailures :=
    if emails.length != 3 then
      ["Sequence has " ++ toString emails.length ++ " emails, expected 3"]
    else []
  let lenSuggestions :=
    if emails.length != 3 then ["Generate exactly 3 emails per sequence"] else []
  let actualAngles := emails.map (fun e => e.angle)
  let angleOrderValid := everyIdxEq actualAngles expectedAngles
  let angleFailures :=
    if !angleOrderValid then
      ["Angle order incorrect: expected timing->challenge->outcome, got "
        ++ String.intercalate "->" actualAngles]
    else []
  let angleSuggestions :=
    if !angleOrderValid then
      ["Emails must follow angle order: E1=timing, E2=challenge, E3=outcome"]
    else []
  let merged := emails.foldl seqStep ([("angle_order_valid", angleOrderValid)], [], [])
  let allFailures := lenFailures ++ angleFailures ++ merged.2.1
  { passed := allFailures.length == 0
    checks := merged.1
    failures := allFailures
    suggestions := lenSuggestions ++ angleSuggestions ++ merged.2.2 }

/-!
Claim C7: `countWords` counts the non-empty tokens of a whitespace
split.
-/

/-- Reference count following the spec's words: the number of non-empty
tokens obtained by splitting on maximal runs of whitespace, counted by
tracking whether the scan is inside a token. -/
def tokenCountAux : Bool → List Char → Nat
  | _, [] => 0
  | inw, c :: cs =>
    if isWs c then tokenCountAux false cs
    else (if inw then 0 else 1) + tokenCountAux true cs

/-- Reference token count for a text (spec side of claim C7). -/
def wsTokenCount (l : List Char) : Nat := tokenCountAux false l

/-- Count of the non-empty pieces of a split. -/
def countNE (ls : List (List Char)) : Nat :=
  (ls.filter (fun w => w.length > 0)).length

theorem countNE_cons (w : List Char) (ls : List (List Char)) :
    countNE (w :: ls) = (if w.length > 0 then 1 else 0) + countNE ls := by
  simp only [countNE, List.filter]
  by_cases h : w.length > 0 <;> simp [h, Nat.add_comm]

theorem jsSplitWs_tokenCount (rest : List Char) :
    (∀ acc : List Char,
      countNE (jsSplitWsGo acc rest)
        = (if acc.isEmpty then 0 else 1) + tokenCountAux (!acc.isEmpty) rest)
    ∧ countNE (jsSplitWsSkip rest) = tokenCountAux false rest := by
  induction rest with
  | nil =>
    constructor
    · intro acc
      cases acc <;> simp [jsSplitWsGo, countNE, tokenCountAux, List.filter]
    · simp [jsSplitWsSkip, countNE, tokenCountAux, List.filter]
  | cons c cs ih =>
    constructor
    · intro acc
      simp only [jsSplitWsGo]
      by_cases hws : isWs c
      · rw [if_pos hws, countNE_cons, ih.2]
        cases acc <;> simp [tokenCountAux, hws]
      · rw [if_neg hws, ih.1 (c :: acc)]
        cases acc <;> simp [tokenCountAux, hws]
    · simp only [jsSplitWsSkip]
      by_cases hws : isWs c
      · rw [if_pos hws, ih.2]
        simp [tokenCountAux, hws]
      · rw [if_neg hws, ih.1 [c]]
        simp [tokenCountAux, hws]

theorem tokenCountAux_all_ws (ys : List Char) (h : ∀ c ∈ ys, isWs c = true) :
    ∀ b, tokenCountAux b ys = 0 := by
  induction ys with
  | nil => intro b; rfl
  | cons c cs ih =>
    intro b
    have hc : isWs c = true := h c (List.mem_cons_self c cs)
    simp only [tokenCountAux, hc, if_pos]
    exact ih (fun x hx => h x (List.mem_cons_of_mem c hx)) false

theorem tokenCountAux_append_ws (xs ys : List Char)
    (h : ∀ c ∈ ys, isWs c = true) :
    ∀ b, tokenCountAux b (xs ++ ys) = tokenCountAux b xs := by
  induction xs with
  | nil => intro b; simpa [tokenCountAux] using tokenCountAux_all_ws ys h b
  | cons c cs ih =>
    intro b
    by_cases hws : isWs c <;> simp [tokenCountAux, hws, ih]

theorem tokenCountAux_dropWhile_ws (l : List Char) :
    tokenCountAux false (l.dropWhile isWs) = tokenCountAux false l := by
  induction l with
  | nil => rfl
  | cons c cs ih =>
    by_cases hws : isWs c <;> simp [List.dropWhile, tokenCountAux, hws, ih]

theorem tokenCountAux_jsTrim (l : List Char) :
    tokenCountAux false (jsTrim l) = tokenCountAux false l := by
  unfold jsTrim
  set m := l.dropWhile isWs with hm
  have hsplit : (m.reverse.dropWhile isWs).reverse ++ (m.reverse.takeWhile isWs).reverse = m := by
    rw [← List.reverse_append, List.takeWhile_append_dropWhile, List.reverse_reverse]
  have hws : ∀ c ∈ (m.reverse.takeWhile isWs).reverse, isWs c = true := by
    intro c hc
    rw [List.mem_reverse] at hc
    exact List.mem_takeWhile_imp hc
  calc tokenCountAux false (m.reverse.dropWhile isWs).reverse
      = tokenCountAux false ((m.reverse.dropWhile isWs).reverse
          ++ (m.reverse.takeWhile isWs).reverse) :=
        (tokenCountAux_append_ws _ _ hws false).symm
    _ = tokenCountAux false m := by rw [hsplit]
    _ = tokenCountAux false l := by rw [hm, tokenCountAux_dropWhile_ws]

/-- C7: for every string, `countWords` equals the number of non-empty
tokens obtained by splitting on maximal runs of whitespace; in
particular `countWords "a  b\tc" = 3` and the empty and whitespace-only
strings count 0. -/
theorem countWords_correct :
    (∀ s : String, countWords s = wsTokenCount s.data)
    ∧ countWords "a  b\tc" = 3 ∧ countWords "" = 0 ∧ countWords " \t " = 0 := by
  refine ⟨fun s => ?_, by decide, by decide, by decide⟩
  show countNE (jsSplitWs (jsTrim s.data)) = wsTokenCount s.data
  rw [jsSplitWs, (jsSplitWs_tokenCount (jsTrim s.data)).1 []]
  simpa [wsTokenCount] using tokenCountAux_jsTrim s.data

/-!
Claim C1: the pronoun-timing rule `hasValidWeTiming`.
-/

/-- Word boundary at offset `k` of a suffix whose preceding character
is `prev` (`none` at the start of the text). -/
def bAtFrom (prev : Option Char) (rest : List Char) : Nat → Bool
  | 0 => bOk prev
  | k + 1 =>
    match rest.get? k with
    | some c => !isWordChar c
    | none => true

theorem bAtFrom_cons (prev : Option Char) (c : Char) (cs : List Char) (k : Nat) :
    bAtFrom prev (c :: cs) (k + 1) = bAtFrom (some c) cs k := by
  cases k <;> rfl

/-- A `\b`-anchored pattern matches the text `t` at offset `i`. -/
def pMatchAt (p : Pat) (t : List Char) (i : Nat) : Bool :=
  bAtFrom none t i && matchesAt p (t.drop i)

/-- The pronoun regex matches at offset `i`. -/
def weMatchAt (t : List Char) (i : Nat) : Bool := pMatchAt wePat t i

/-- Some Class-introduction pattern matches at offset `i`. -/
def classMatchAt (t : List Char) (i : Nat) : Bool :=
  classPatterns.any (fun p => pMatchAt p t i)

theorem exists_nat_split (P : Nat → Prop) :
    (∃ k, P k) ↔ P 0 ∨ ∃ k, P (k + 1) := by
  constructor
  · rintro ⟨k, h⟩
    cases k with
    | zero => exact Or.inl h
    | succ k => exact Or.inr ⟨k, h⟩
  · rintro (h | ⟨k, h⟩)
    · exact ⟨0, h⟩
    · exact ⟨k + 1, h⟩

theorem weViolationFrom_iff (cp : Int) :
    ∀ (rest : List Char) (prev : Option Char) (i : Nat),
      weViolationFrom cp prev i rest = true ↔
        ∃ k, (bAtFrom prev rest k && matchesAt wePat (rest.drop k)
               && (cp == -1 || decide (((i + k : Nat) : Int) < cp))) = true := by
  intro rest
  induction rest with
  | nil =>
    intro prev i
    have hempty : matchesAt wePat ([] : List Char) = false := by decide
    simp only [weViolationFrom, List.drop_nil, hempty, Bool.and_false, Bool.false_and,
      Bool.false_eq_true, exists_false]
  | cons c cs ih =>
    intro prev i
    simp only [weViolationFrom, Bool.or_eq_true]
    rw [ih (some c) (i + 1), exists_nat_split
      (fun k => (bAtFrom prev (c :: cs) k && matchesAt wePat ((c :: cs).drop k)
        && (cp == -1 || decide (((i + k : Nat) : Int) < cp))) = true)]
    constructor
    · rintro (h | ⟨k, h⟩)
      · exact Or.inl (by simpa [bAtFrom] using h)
      · refine Or.inr ⟨k, ?_⟩
        rw [bAtFrom_cons]
        have harith : i + (k + 1) = i + 1 + k := by omega
        simpa [harith] using h
    · rintro (h | ⟨k, h⟩)
      · exact Or.inl (by simpa [bAtFrom] using h)
      · refine Or.inr ⟨k, ?_⟩
        rw [bAtFrom_cons] at h
        have harith : i + (k + 1) = i + 1 + k := by omega
        simpa [harith] using h

/-- C1 counterexample: a body that never introduces Class by any
introduction pattern (`classPosition = -1`) yet fails
`hasValidWeTiming` because it uses "we"; the claim asserts the check
passes regardless of pronoun use in this case. -/
theorem hasValidWeTiming_counterexample :
    classPosition (lower "The challenge we hear from health systems is real.".data) = -1
    ∧ hasValidWeTiming "The challenge we hear from health systems is real." = false := by
  constructor
  · decide
  · decide

theorem firstIdxBFrom_some_iff (p : Pat) (hp : matchesAt p [] = false) :
    ∀ (rest : List Char) (prev : Option Char) (i n : Nat),
      firstIdxBFrom p prev i rest = some n ↔
        ∃ k, n = i + k
          ∧ (bAtFrom prev rest k && matchesAt p (rest.drop k)) = true
          ∧ ∀ m < k, (bAtFrom prev rest m && matchesAt p (rest.drop m)) = false := by
  intro rest
  induction rest with
  | nil =>
    intro prev i n
    simp only [firstIdxBFrom, List.drop_nil, hp, Bool.and_false, Bool.false_eq_true,
      false_and, and_false, exists_false, iff_false]
    intro hcontra
    simp at hcontra
  | cons c cs ih =>
    intro prev i n
    simp only [firstIdxBFrom]
    by_cases hhit : (bOk prev && matchesAt p (c :: cs)) = true
    · rw [if_pos hhit]
      constructor
      · intro h
        refine ⟨0, by simpa using h.symm, by simpa [bAtFrom] using hhit, by omega⟩
      · rintro ⟨k, hn, hk, hmin⟩
        cases k with
        | zero => simpa using hn.symm
        | succ k =>
          have := hmin 0 (Nat.succ_pos k)
          rw [show bAtFrom prev (c :: cs) 0 = bOk prev from rfl] at this
          simp only [List.drop_zero] at this
          exact absurd hhit (by simp [this])
    · rw [if_neg hhit]
      rw [ih (some c) (i + 1) n]
      constructor
      · rintro ⟨k, hn, hk, hmin⟩
        refine ⟨k + 1, by omega, ?_, ?_⟩
        · rw [bAtFrom_cons]; simpa using hk
        · intro m hm
          cases m with
          | zero =>
            simp only [bAtFrom, List.drop_zero]
            exact Bool.eq_false_iff.mpr (fun hc => hhit hc)
          | succ m =>
            rw [bAtFrom_cons]
            simpa using hmin m (by omega)
      · rintro ⟨k, hn, hk, hmin⟩
        cases k with
        | zero =>
          exfalso
          apply hhit
          simpa [bAtFrom] using hk
        | succ k =>
          refine ⟨k, by omega, ?_, ?_⟩
          · rw [bAtFrom_cons] at hk; simpa using hk
          · intro m hm
            have := hmin (m + 1) (by omega)
            rw [bAtFrom_cons] at this
            simpa using this

theorem firstIdxBFrom_none_iff (p : Pat) (hp : matchesAt p [] = false) :
    ∀ (rest : List Char) (prev : Option Char) (i : Nat),
      firstIdxBFrom p prev i rest = none ↔
        ∀ k, (bAtFrom prev rest k && matchesAt p (rest.drop k)) = false := by
  intro rest
  induction rest with
  | nil =>
    intro prev i
    simp only [firstIdxBFrom]
    constructor
    · intro h k
      simp [hp]
    · intro h
      simp [hp]
  | cons c cs ih =>
    intro prev i
    simp only [firstIdxBFrom]
    by_cases hhit : (bOk prev && matchesAt p (c :: cs)) = true
    · rw [if_pos hhit]
      constructor
      · intro h; simp at h
      · intro h
        have := h 0
        rw [show bAtFrom prev (c :: cs) 0 = bOk prev from rfl] at this
        simp only [List.drop_zero] at this
        exact absurd hhit (by simp [this])
    · rw [if_neg hhit]
      rw [ih (some c) (i + 1)]
      constructor
      · intro h k
        cases k with
        | zero =>
          simp only [bAtFrom, List.drop_zero]
          exact Bool.eq_false_iff.mpr (fun hc => hhit hc)
        | succ k =>
          rw [bAtFrom_cons]
          simpa using h k
      · intro h k
        have := h (k + 1)
        rw [bAtFrom_cons] at this
        simpa using this

theorem firstIdxB_some_iff (p : Pat) (hp : matchesAt p [] = false) (t : List Char) (n : Nat) :
    firstIdxB p t = some n ↔
      pMatchAt p t n = true ∧ ∀ m < n, pMatchAt p t m = false := by
  rw [firstIdxB, firstIdxBFrom_some_iff p hp t none 0 n]
  constructor
  · rintro ⟨k, hn, hk, hmin⟩
    have hkn : k = n := by omega
    subst hkn
    exact ⟨hk, fun m hm => hmin m hm⟩
  · rintro ⟨hk, hmin⟩
    exact ⟨n, by omega, hk, fun m hm => hmin m hm⟩

theorem firstIdxB_none_iff (p : Pat) (hp : matchesAt p [] = false) (t : List Char) :
    firstIdxB p t = none ↔ ∀ m, pMatchAt p t m = false := by
  rw [firstIdxB, firstIdxBFrom_none_iff p hp t none 0]
  exact Iff.rfl

theorem classPatterns_no_empty_match :
    classPatterns.all (fun p => !(matchesAt p [])) = true := by decide

theorem foldCp_spec (t : List Char) : ∀ ps : List Pat,
    (ps.foldl (cpStep t) (-1) = -1 ∨ ∃ X : Nat, ps.foldl (cpStep t) (-1) = (X : Int))
    ∧ (ps.foldl (cpStep t) (-1) = -1 ↔ ∀ p ∈ ps, firstIdxB p t = none)
    ∧ (∀ X : Nat, ps.foldl (cpStep t) (-1) = (X : Int) →
        (∃ p ∈ ps, firstIdxB p t = some X)
        ∧ ∀ p ∈ ps, ∀ j, firstIdxB p t = some j → X ≤ j) := by
  intro ps
  induction ps using List.reverseRecOn with
  | nil =>
    refine ⟨Or.inl rfl, by simp, ?_⟩
    intro X hX
    simp only [List.foldl_nil] at hX
    omega
  | append_singleton ps p ih =>
    rw [List.foldl_append]
    simp only [List.foldl_cons, List.foldl_nil]
    obtain ⟨hinv, hneg, hpos⟩ := ih
    cases hfp : firstIdxB p t with
    | none =>
      have hstep : cpStep t (ps.foldl (cpStep t) (-1)) p = ps.foldl (cpStep t) (-1) := by
        simp [cpStep, hfp]
      rw [hstep]
      refine ⟨hinv, ?_, ?_⟩
      · rw [hneg]
        constructor
        · intro h q hq
          rcases List.mem_append.mp hq with hq | hq
          · exact h q hq
          · rw [List.mem_singleton.mp hq]; exact hfp
        · intro h q hq
          exact h q (List.mem_append.mpr (Or.inl hq))
      · intro X hX
        obtain ⟨⟨q, hq, hqX⟩, hmin⟩ := hpos X hX
        refine ⟨⟨q, List.mem_append.mpr (Or.inl hq), hqX⟩, ?_⟩
        intro q' hq' j hj
        rcases List.mem_append.mp hq' with hq' | hq'
        · exact hmin q' hq' j hj
        · rw [List.mem_singleton.mp hq'] at hj
          rw [hfp] at hj
          exact absurd hj (by simp)
    | some i =>
      rcases hinv with hr | ⟨Y, hY⟩
      · have hstep : cpStep t (ps.foldl (cpStep t) (-1)) p = (i : Int) := by
          rw [hr]; simp [cpStep, hfp]
        rw [hstep]
        have hnone : ∀ q ∈ ps, firstIdxB q t = none := hneg.mp hr
        refine ⟨Or.inr ⟨i, rfl⟩, ?_, ?_⟩
        · constructor
          · intro h; omega
          · intro h
            have := h p (List.mem_append.mpr (Or.inr (List.mem_singleton.mpr rfl)))
            rw [hfp] at this
            exact absurd this (by simp)
        · intro X hX
          have hiX : i = X := by omega
          subst hiX
          refine ⟨⟨p, List.mem_append.mpr (Or.inr (List.mem_singleton.mpr rfl)), hfp⟩, ?_⟩
          intro q hq j hj
          rcases List.mem_append.mp hq with hq | hq
          · rw [hnone q hq] at hj
            exact absurd hj (by simp)
          · rw [List.mem_singleton.mp hq] at hj
            rw [hfp] at hj
            have : i = j := by simpa using hj
            omega
      · rw [hY]
        by_cases hlt : (i : Int) < (Y : Int)
        · have hstep : cpStep t (Y : Int) p = (i : Int) := by
            simp only [cpStep, hfp]
            rw [if_pos]
            simp only [Bool.or_eq_true, beq_iff_eq, decide_eq_true_iff]
            exact Or.inr hlt
          rw [hstep]
          refine ⟨Or.inr ⟨i, rfl⟩, ?_, ?_⟩
          · constructor
            · intro h; omega
            · intro h
              have := h p (List.mem_append.mpr (Or.inr (List.mem_singleton.mpr rfl)))
              rw [hfp] at this
              exact absurd this (by simp)
          · intro X hX
            have hiX : i = X := by omega
            subst hiX
            obtain ⟨_, hmin⟩ := hpos Y hY
            refine ⟨⟨p, List.mem_append.mpr (Or.inr (List.mem_singleton.mpr rfl)), hfp⟩, ?_⟩
            intro q hq j hj
            rcases List.mem_append.mp hq with hq | hq
            · have := hmin q hq j hj
              omega
            · rw [List.mem_singleton.mp hq] at hj
              rw [hfp] at hj
              have : i = j := by simpa using hj
              omega
        · have hstep : cpStep t (Y : Int) p = (Y : Int) := by
            simp only [cpStep, hfp]
            rw [if_neg]
            simp only [Bool.or_eq_true, beq_iff_eq, decide_eq_true_iff]
            push_neg
            constructor
            · omega
            · omega
          rw [hstep]
          refine ⟨Or.inr ⟨Y, rfl⟩, ?_, ?_⟩
          · constructor
            · intro h; omega
            · intro h
              have := h p (List.mem_append.mpr (Or.inr (List.mem_singleton.mpr rfl)))
              rw [hfp] at this
              exact absurd this (by simp)
          · intro X hX
            have hYX : Y = X := by omega
            subst hYX
            obtain ⟨⟨q, hq, hqY⟩, hmin⟩ := hpos Y hY
            refine ⟨⟨q, List.mem_append.mpr (Or.inl hq), hqY⟩, ?_⟩
            intro q' hq' j hj
            rcases List.mem_append.mp hq' with hq' | hq'
            · exact hmin q' hq' j hj
            · rw [List.mem_singleton.mp hq'] at hj
              rw [hfp] at hj
              have : i = j := by simpa using hj
              omega

theorem classMatchAt_false_iff (t : List Char) (i : Nat) :
    classMatchAt t i = false ↔ ∀ p ∈ classPatterns, pMatchAt p t i = false := by
  rw [classMatchAt]
  constructor
  · intro h p hp
    by_contra hc
    have : classPatterns.any (fun p => pMatchAt p t i) = true :=
      List.any_eq_true.mpr ⟨p, hp, by simpa using hc⟩
    rw [this] at h
    exact absurd h (by simp)
  · intro h
    by_contra hc
    have : classPatterns.any (fun p => pMatchAt p t i) = true := by
      simpa using hc
    obtain ⟨p, hp, hmatch⟩ := List.any_eq_true.mp this
    rw [h p hp] at hmatch
    exact absurd hmatch (by simp)

theorem classPosition_neg_iff (t : List Char) :
    classPosition t = -1 ↔ ∀ i, classMatchAt t i = false := by
  rw [classPosition, (foldCp_spec t classPatterns).2.1]
  constructor
  · intro h i
    rw [classMatchAt_false_iff]
    intro p hp
    have hpe : matchesAt p [] = false := by
      have := List.all_eq_true.mp classPatterns_no_empty_match p hp
      simpa using this
    exact (firstIdxB_none_iff p hpe t).mp (h p hp) i
  · intro h p hp
    have hpe : matchesAt p [] = false := by
      have := List.all_eq_true.mp classPatterns_no_empty_match p hp
      simpa using this
    rw [firstIdxB_none_iff p hpe t]
    intro m
    exact (classMatchAt_false_iff t m).mp (h m) p hp

theorem classPosition_earliest (t : List Char) (X : Nat) (hX : classPosition t = (X : Int)) :
    classMatchAt t X = true ∧ ∀ i < X, classMatchAt t i = false := by
  rw [classPosition] at hX
  obtain ⟨⟨p, hp, hpX⟩, hmin⟩ := (foldCp_spec t classPatterns).2.2 X hX
  have hpe : matchesAt p [] = false := by
    have := List.all_eq_true.mp classPatterns_no_empty_match p hp
    simpa using this
  obtain ⟨hmatch, _⟩ := (firstIdxB_some_iff p hpe t X).mp hpX
  refine ⟨List.any_eq_true.mpr ⟨p, hp, by simpa using hmatch⟩, ?_⟩
  intro i hi
  rw [classMatchAt_false_iff]
  intro q hq
  by_contra hc
  have hqi : pMatchAt q t i = true := by simpa using hc
  have hqe : matchesAt q [] = false := by
    have := List.all_eq_true.mp classPatterns_no_empty_match q hq
    simpa using this
  cases hfq : firstIdxB q t with
  | none =>
    rw [(firstIdxB_none_iff q hqe t).mp hfq i] at hqi
    exact absurd hqi (by simp)
  | some j =>
    obtain ⟨_, hjmin⟩ := (firstIdxB_some_iff q hqe t j).mp hfq
    have hji : j ≤ i := by
      by_contra hji
      rw [hjmin i (by omega)] at hqi
      exact absurd hqi (by simp)
    have := hmin q hq j hfq
    omega

/-- C1 (amended): `hasValidWeTiming` is false exactly when some
plural-pronoun occurrence lies strictly before the earliest
Class-introduction offset, or — contrary to the claim's permissive
reading — when no introduction pattern matches at all and a
plural-pronoun occurrence exists anywhere; `classPosition` is `-1`
exactly when no introduction pattern matches and otherwise is the
earliest offset at which one matches. -/
theorem hasValidWeTiming_spec : ∀ s : String,
    (hasValidWeTiming s = false ↔
      ∃ i, weMatchAt (lower s.data) i = true
        ∧ (classPosition (lower s.data) = -1
           ∨ (i : Int) < classPosition (lower s.data)))
    ∧ (classPosition (lower s.data) = -1 ↔ ∀ i, classMatchAt (lower s.data) i = false)
    ∧ (∀ X : Nat, classPosition (lower s.data) = (X : Int) →
        classMatchAt (lower s.data) X = true
        ∧ ∀ i < X, classMatchAt (lower s.data) i = false) := by
  intro s
  refine ⟨?_, classPosition_neg_iff (lower s.data), fun X hX => classPosition_earliest _ X hX⟩
  rw [hasValidWeTiming]
  constructor
  · intro h
    have hscan : weViolationFrom (classPosition (lower s.data)) none 0 (lower s.data) = true := by
      by_contra hc
      rw [Bool.not_eq_true] at hc
      rw [hc] at h
      exact absurd h (by simp)
    obtain ⟨k, hk⟩ := (weViolationFrom_iff (classPosition (lower s.data)) (lower s.data) none 0).mp hscan
    refine ⟨k, ?_, ?_⟩
    · have := hk
      simp only [Bool.and_eq_true] at this
      exact Bool.and_eq_true_iff.mpr ⟨this.1.1, this.1.2⟩
    · have := hk
      simp only [Bool.and_eq_true, Bool.or_eq_true, beq_iff_eq, decide_eq_true_iff] at this
      simpa using this.2
  · rintro ⟨i, hmatch, hcond⟩
    have hscan : weViolationFrom (classPosition (lower s.data)) none 0 (lower s.data) = true := by
      rw [weViolationFrom_iff (classPosition (lower s.data)) (lower s.data) none 0]
      refine ⟨i, ?_⟩
      have hm := Bool.and_eq_true_iff.mp hmatch
      simp only [Bool.and_eq_true, Bool.or_eq_true, beq_iff_eq, decide_eq_true_iff]
      refine ⟨⟨hm.1, hm.2⟩, ?_⟩
      simpa using hcond
    rw [hscan]
    rfl

/-!
Claim C6: the KLAS-introduction rule `hasValidKlasIntro`.
-/

/-- Number of occurrences of `sub` in `hay` (counted at every start
position). -/
def numOccur (hay sub : List Char) : Nat :=
  ((List.range (hay.length + 1)).filter (fun i => sub.isPrefixOf (hay.drop i))).length

/-- C6 counterexample: a body whose only KLAS mention is the shorthand
"KLAS data shows...", placed after a sentence boundary; the claim says
`hasValidKlasIntro` is false, but the source's bad-shorthand patterns
are anchored `/^[^.]*.../` and only fire before the first period, so
the check returns true. -/
theorem hasValidKlasIntro_counterexample :
    numOccur (lower "Hi there. KLAS data shows things".data) "klas".data = 1
    ∧ jsIncludes (lower "Hi there. KLAS data shows things".data) "klas data shows".data = true
    ∧ (validIntros.any fun p => existsMatch p (lower "Hi there. KLAS data shows things".data)) = false
    ∧ hasValidKlasIntro "Hi there. KLAS data shows things" = true := by
  refine ⟨by decide, by decide, by decide, by decide⟩

/-- C6 (amended): `hasValidKlasIntro` is true for every body not
containing "klas" case-insensitively and for every body matching a
fully-qualified introduction phrasing; when no qualified phrasing
matches, it is false exactly when one of the fixed shorthand patterns
matches anchored at the start of the body — that is, only when the
shorthand occurs before the body's first period, not for every body
whose only mention is the shorthand. -/
theorem hasValidKlasIntro_spec : ∀ s : String,
    (jsIncludes (lower s.data) "klas".data = false → hasValidKlasIntro s = true)
    ∧ ((validIntros.any fun p => existsMatch p (lower s.data)) = true →
        hasValidKlasIntro s = true)
    ∧ (hasValidKlasIntro s = false ↔
        jsIncludes (lower s.data) "klas".data = true
        ∧ (validIntros.any fun p => existsMatch p (lower s.data)) = false
        ∧ (badKlasPatterns.any fun p => matchesAt p (lower s.data)) = true) := by
  intro s
  rw [hasValidKlasIntro]
  by_cases hinc : jsIncludes (lower s.data) "klas".data = true
  · by_cases hintro : (validIntros.any fun p => existsMatch p (lower s.data)) = true
    · simp [hinc, hintro]
    · rw [Bool.not_eq_true] at hintro
      by_cases hbad : (badKlasPatterns.any fun p => matchesAt p (lower s.data)) = true
      · simp [hinc, hintro, hbad]
      · rw [Bool.not_eq_true] at hbad
        simp [hinc, hintro, hbad]
  · rw [Bool.not_eq_true] at hinc
    simp [hinc]

/-!
Claims C2 and C10: the shape and aggregation of `validateEmail`.
-/

theorem validateEmail_checks (email : EmailVariant) :
    (validateEmail email).checks =
      [("word_count_valid",
          decide (150 ≤ countWords email.body) && decide (countWords email.body ≤ 200)),
       ("contractions_used", !(hasContractionIssues email.body)),
       ("klas_intro_valid", hasValidKlasIntro email.body),
       ("we_timing_valid", hasValidWeTiming email.body),
       ("cta_valid", hasValidCta email.body),
       ("warmth_phrase_valid", hasWarmthPhrase email.body email.email_number),
       ("no_banned_phrases", (hasBannedPhrases email.body).length == 0),
       ("signature_valid", hasValidSignature email.body),
       ("subject_valid", !("re:".data.isPrefixOf (lower email.subject_line.data)))] := rfl

theorem validateEmail_failures (email : EmailVariant) :
    (validateEmail email).failures =
      (if decide (150 ≤ countWords email.body) && decide (countWords email.body ≤ 200) then []
       else ["Word count " ++ toString (countWords email.body) ++ " outside range 150-200"])
      ++ (if !(hasContractionIssues email.body) then [] else
        ["Uncontracted phrases detected (e.g., \"I am\" instead of \"I'm\")"])
      ++ (if hasValidKlasIntro email.body then [] else
        ["KLAS mentioned without proper introduction"])
      ++ (if hasValidWeTiming email.body then [] else
        ["\"We\" used before Class was introduced"])
      ++ (if hasValidCta email.body then [] else
        ["CTA contains banned patterns (e.g., \"20 minutes\", specific day/time)"])
      ++ (if hasWarmthPhrase email.body email.email_number then [] else
        ["Email 3 missing warmth phrase"])
      ++ (if (hasBannedPhrases email.body).length == 0 then [] else
        ["Banned phrases found: " ++ toString (hasBannedPhrases email.body).length])
      ++ (if hasValidSignature email.body then [] else
        ["Email not signed \"Dalton\" on last line"])
      ++ (if !("re:".data.isPrefixOf (lower email.subject_line.data)) then [] else
        ["Subject line starts with \"Re:\""]) := rfl

theorem validateEmail_passed (email : EmailVariant) :
    (validateEmail email).passed = ((validateEmail email).failures.length == 0) := rfl

theorem validateEmail_suggestions (email : EmailVariant) :
    (validateEmail email).suggestions =
      (if decide (150 ≤ countWords email.body) && decide (countWords email.body ≤ 200) then []
       else if countWords email.body < 150 then
         ["Add " ++ toString (150 - countWords email.body) ++ " more words to meet minimum"]
       else
         ["Remove " ++ toString (countWords email.body - 200) ++ " words to meet maximum"])
      ++ (if !(hasContractionIssues email.body) then [] else
        ["Use contractions: I'm, you're, that's, it's, can't, won't, don't"])
      ++ (if hasValidKlasIntro email.body then [] else
        ["First KLAS mention must include: \"KLAS Research—which surveyed 500,000+ clinicians across 300 healthcare organizations—found that...\""])
      ++ (if hasValidWeTiming email.body then [] else
        ["Introduce Class by name before using \"we\": \"That's why I'm reaching out about Class—a virtual classroom platform. The challenge we hear...\""])
      ++ (if hasValidCta email.body then [] else
        ["Use conversational CTAs: \"Is it worth a quick conversation? Let me know when works best for you.\""])
      ++ (if hasWarmthPhrase email.body email.email_number then [] else
        ["Add warmth phrase: \"Even if the timing isn't right over the next few months, I hope these findings are useful context for your planning.\""])
      ++ (if (hasBannedPhrases email.body).length == 0 then [] else hasBannedPhrases email.body)
      ++ (if hasValidSignature email.body then [] else
        ["End email with just \"Dalton\" (first name only)"])
      ++ (if !("re:".data.isPrefixOf (lower email.subject_line.data)) then [] else
        ["Each email needs a unique subject line, no \"Re:\" prefix"]) := rfl

/-- C2 counterexample input: the `word_count` field is 0 (far outside
the rule's bounds) while the body itself has exactly 150 words. -/
def wordCountFieldEmail : EmailVariant :=
  { variant_id := "001-A-E1"
    email_number := 1
    subject_line := "Hello"
    body := String.intercalate " " (List.replicate 150 "hi")
    word_count := 0
    angle := "timing" }

/-- C2 counterexample input with a two-word body. -/
def twoWordEmail : EmailVariant :=
  { variant_id := "001-A-E1"
    email_number := 1
    subject_line := "Hello"
    body := "hi there"
    word_count := 2
    angle := "timing" }

/-- C2 counterexample: `validateEmail` never reads the `word_count`
field — it recounts the body, so an email whose `word_count` field is 0
but whose body has 150 words still gets `word_count_valid = true`; and
for a genuinely short body the message naming the exact shortfall
("Add 148 more words...") appears in the suggestions list, not in the
failures list, whose message names the computed count instead. -/
theorem validateEmail_word_count_counterexample :
    (wordCountFieldEmail.word_count = 0
      ∧ countWords wordCountFieldEmail.body = 150
      ∧ List.lookup "word_count_valid" (validateEmail wordCountFieldEmail).checks = some true)
    ∧ (countWords twoWordEmail.body = 2
      ∧ "Word count 2 outside range 150-200" ∈ (validateEmail twoWordEmail).failures
      ∧ "Add 148 more words to meet minimum" ∉ (validateEmail twoWordEmail).failures
      ∧ "Add 148 more words to meet minimum" ∈ (validateEmail twoWordEmail).suggestions) := by
  refine ⟨⟨rfl, by decide, ?_⟩, by decide, by decide, by decide, by decide⟩
  rw [validateEmail_checks]
  have h150 : countWords wordCountFieldEmail.body = 150 := by decide
  rw [h150]
  rfl

/-- C2 (amended): when the word count computed from the body lies
outside [150, 200], the `word_count_valid` check is false, the failures
list names the computed count, and the suggestions list names the exact
shortfall below 150 or excess above 200. -/
theorem validateEmail_word_count_bounds (email : EmailVariant)
    (h : countWords email.body < 150 ∨ 200 < countWords email.body) :
    List.lookup "word_count_valid" (validateEmail email).checks = some false
    ∧ ("Word count " ++ toString (countWords email.body) ++ " outside range 150-200")
        ∈ (validateEmail email).failures
    ∧ (countWords email.body < 150 →
        ("Add " ++ toString (150 - countWords email.body) ++ " more words to meet minimum")
          ∈ (validateEmail email).suggestions)
    ∧ (200 < countWords email.body →
        ("Remove " ++ toString (countWords email.body - 200) ++ " words to meet maximum")
          ∈ (validateEmail email).suggestions) := by
  have hwc : (decide (150 ≤ countWords email.body)
      && decide (countWords email.body ≤ 200)) = false := by
    rcases h with h | h
    · have hn : ¬(150 ≤ countWords email.body) := by omega
      simp [hn]
    · have hn : ¬(countWords email.body ≤ 200) := by omega
      simp [hn]
  refine ⟨?_, ?_, ?_, ?_⟩
  · rw [validateEmail_checks, hwc]
    rfl
  · rw [validateEmail_failures, hwc]
    simp
  · intro hlt
    rw [validateEmail_suggestions, hwc]
    simp [hlt]
  · intro hgt
    rw [validateEmail_suggestions, hwc]
    have hnlt : ¬(countWords email.body < 150) := by omega
    simp [hnlt]

theorem if_nil_iff (b : Bool) (m : String) :
    ((if b then ([] : List String) else [m]) = []) ↔ b = true := by
  cases b <;> simp

/-- C10: for every input, `validateEmail` returns a result whose checks
map has exactly the nine named keys in order, whose `passed` is true
exactly when the failures list is empty, which in turn holds exactly
when every check value is true. -/
theorem validateEmail_invariants : ∀ email : EmailVariant,
    (validateEmail email).checks.map Prod.fst =
      ["word_count_valid", "contractions_used", "klas_intro_valid", "we_timing_valid",
       "cta_valid", "warmth_phrase_valid", "no_banned_phrases", "signature_valid",
       "subject_valid"]
    ∧ ((validateEmail email).passed = true ↔ (validateEmail email).failures = [])
    ∧ ((validateEmail email).failures = [] ↔
        ∀ kv ∈ (validateEmail email).checks, kv.2 = true) := by
  intro email
  refine ⟨rfl, ?_, ?_⟩
  · rw [validateEmail_passed]
    generalize (validateEmail email).failures = L
    simp [List.length_eq_zero]
  · rw [validateEmail_failures, validateEmail_checks]
    simp only [List.append_eq_nil, if_nil_iff, List.forall_mem_cons, List.not_mem_nil,
      false_implies, and_true, List.forall_mem_ne]
    tauto

/-- C2 witness input: a two-word body, far below the minimum. -/
def shortEmail : EmailVariant :=
  { variant_id := "001-A-E1"
    email_number := 1
    subject_line := "Hello"
    body := "hi there"
    word_count := 2
    angle := "timing" }

theorem validateEmail_word_count_bounds_witness :
    (countWords shortEmail.body < 150 ∨ 200 < countWords shortEmail.body)
    ∧ (List.lookup "word_count_valid" (validateEmail shortEmail).checks = some false
       ∧ ("Word count " ++ toString (countWords shortEmail.body) ++ " outside range 150-200")
           ∈ (validateEmail shortEmail).failures
       ∧ (countWords shortEmail.body < 150 →
           ("Add " ++ toString (150 - countWords shortEmail.body) ++ " more words to meet minimum")
             ∈ (validateEmail shortEmail).suggestions)
       ∧ (200 < countWords shortEmail.body →
           ("Remove " ++ toString (countWords shortEmail.body - 200) ++ " words to meet maximum")
             ∈ (validateEmail shortEmail).suggestions)) :=
  ⟨Or.inl (by decide), validateEmail_word_count_bounds shortEmail (Or.inl (by decide))⟩

/-!
Claim C5: `validateSequence` and the angle order.
-/

theorem validateSequence_passed_def (emails : List EmailVariant) :
    (validateSequence emails).passed = ((validateSequence emails).failures.length == 0) := rfl

theorem validateSequence_failures_def (emails : List EmailVariant) :
    (validateSequence emails).failures =
      (if emails.length != 3 then
        ["Sequence has " ++ toString emails.length ++ " emails, expected 3"]
       else [])
      ++ (if !(everyIdxEq (emails.map (fun e => e.angle)) expectedAngles) then
        ["Angle order incorrect: expected timing->challenge->outcome, got "
          ++ String.intercalate "->" (emails.map (fun e => e.angle))]
       else [])
      ++ (emails.foldl seqStep
            ([("angle_order_valid", everyIdxEq (emails.map (fun e => e.angle)) expectedAngles)],
              [], [])).2.1 := rfl

theorem seqStep_fails_of_passed (acc : List (String × Bool) × List String × List String)
    (e : EmailVariant) (h : (validateEmail e).passed = true) :
    (seqStep acc e).2.1 = acc.2.1 := by
  simp [seqStep, h]

theorem foldl_seqStep_fails (emails : List EmailVariant)
    (h : ∀ e ∈ emails, (validateEmail e).passed = true) :
    ∀ acc, (emails.foldl seqStep acc).2.1 = acc.2.1 := by
  induction emails with
  | nil => intro acc; rfl
  | cons e es ih =>
    intro acc
    rw [List.foldl_cons, ih (fun x hx => h x (List.mem_cons_of_mem e hx)),
      seqStep_fails_of_passed acc e (h e (List.mem_cons_self e es))]

/-- C5: a 3-email sequence with angles [timing, challenge, outcome]
whose emails all pass `validateEmail` passes `validateSequence`; with
the angles reordered to [challenge, timing, outcome] the sequence fails
with an angle-order failure message, independently of per-email
validity. -/
theorem validateSequence_angle_order :
    (∀ e1 e2 e3 : EmailVariant,
      e1.angle = "timing" → e2.angle = "challenge" → e3.angle = "outcome" →
      (validateEmail e1).passed = true → (validateEmail e2).passed = true →
      (validateEmail e3).passed = true →
      (validateSequence [e1, e2, e3]).passed = true)
    ∧ (∀ e1 e2 e3 : EmailVariant,
      e1.angle = "challenge" → e2.angle = "timing" → e3.angle = "outcome" →
      (validateSequence [e1, e2, e3]).passed = false
      ∧ "Angle order incorrect: expected timing->challenge->outcome, got challenge->timing->outcome"
          ∈ (validateSequence [e1, e2, e3]).failures) := by
  constructor
  · intro e1 e2 e3 h1 h2 h3 hp1 hp2 hp3
    have hall : ∀ e ∈ [e1, e2, e3], (validateEmail e).passed = true := by
      intro e he
      simp only [List.mem_cons, List.not_mem_nil, or_false] at he
      rcases he with rfl | rfl | rfl
      · exact hp1
      · exact hp2
      · exact hp3
    have hangles : [e1, e2, e3].map (fun e => e.angle) = expectedAngles := by
      simp [h1, h2, h3, expectedAngles]
    have key : (validateSequence [e1, e2, e3]).failures = [] := by
      rw [validateSequence_failures_def, hangles, foldl_seqStep_fails [e1, e2, e3] hall]
      rfl
    rw [validateSequence_passed_def, key]
    rfl
  · intro e1 e2 e3 h1 h2 h3
    have hangles : [e1, e2, e3].map (fun e => e.angle) =
        ["challenge", "timing", "outcome"] := by
      simp [h1, h2, h3]
    have hord : everyIdxEq ["challenge", "timing", "outcome"] expectedAngles = false := by
      decide
    have key : ∃ rest : List String, (validateSequence [e1, e2, e3]).failures =
        "Angle order incorrect: expected timing->challenge->outcome, got challenge->timing->outcome"
          :: rest := by
      rw [validateSequence_failures_def, hangles, hord]
      exact ⟨_, rfl⟩
    obtain ⟨rest, hrest⟩ := key
    constructor
    · rw [validateSequence_passed_def, hrest]
      simp
    · rw [hrest]
      exact List.mem_cons_self _ _

/-- C5 witness emails: three emails that individually pass all nine
checks (150-word bodies, signed "Dalton", warmth phrase in email 3). -/
def seqBody12 : String := String.intercalate " " (List.replicate 149 "hi") ++ "\nDalton"

/-- Witness body for email 3, with a warmth phrase. -/
def seqBody3 : String :=
  "I hope this data is useful. " ++ String.intercalate " " (List.replicate 143 "hi")
    ++ "\nDalton"

/-- Witness email 1. -/
def seqEmail1 : EmailVariant := ⟨"001-A-E1", 1, "Hello world", seqBody12, 150, "timing"⟩

/-- Witness email 2. -/
def seqEmail2 : EmailVariant := ⟨"001-A-E2", 2, "Hello again", seqBody12, 150, "challenge"⟩

/-- Witness email 3. -/
def seqEmail3 : EmailVariant := ⟨"001-A-E3", 3, "Hello third", seqBody3, 150, "outcome"⟩

theorem validateSequence_angle_order_witness :
    (validateEmail seqEmail1).passed = true
    ∧ (validateEmail seqEmail2).passed = true
    ∧ (validateEmail seqEmail3).passed = true
    ∧ (validateSequence [seqEmail1, seqEmail2, seqEmail3]).passed = true
    ∧ (validateSequence [seqEmail2, seqEmail1, seqEmail3]).passed = false
    ∧ "Angle order incorrect: expected timing->challenge->outcome, got challenge->timing->outcome"
        ∈ (validateSequence [seqEmail2, seqEmail1, seqEmail3]).failures := by
  have hp1 : (validateEmail seqEmail1).passed = true := by decide
  have hp2 : (validateEmail seqEmail2).passed = true := by decide
  have hp3 : (validateEmail seqEmail3).passed = true := by decide
  have hA := validateSequence_angle_order.1 seqEmail1 seqEmail2 seqEmail3 rfl rfl rfl hp1 hp2 hp3
  have hB := validateSequence_angle_order.2 seqEmail2 seqEmail1 seqEmail3 rfl rfl rfl
  exact ⟨hp1, hp2, hp3, hA, hB.1, hB.2⟩

/-!
Claim C3: the JSON-extraction fallback of `generateForContact`
(`EmailGenerator.tsx`).  The platform primitive `JSON.parse` is not
repository code; it is abstracted as a `parse` function returning
`none` where the source's call throws.  The code-block and
array-pattern regexes have no `i` flag and run on the raw accumulated
text.
-/

/-- Index of the first occurrence of `sub` in `hay` (JavaScript
`String.indexOf`, `none` for `-1`). -/
def indexOfSeq : List Char → List Char → Option Nat
  | hay, sub =>
    if sub.isPrefixOf hay then some 0
    else
      match hay with
      | [] => none
      | _ :: rest => (indexOfSeq rest sub).map (fun n => n + 1)

/-- The capture of `/```(?:json)?\s*([\s\S]*?)```/` on `t`: content of
the first fenced code block.  The optional `json` tag and the greedy
`\s*` are taken whole (a backtick is neither a letter of `json` nor
whitespace, so no backtracking can succeed where this fails), and the
lazy capture runs to the next fence. -/
def extractCodeBlock (t : List Char) : Option (List Char) :=
  match indexOfSeq t "```".data with
  | none => none
  | some i =>
    let rest := t.drop (i + 3)
    let rest2 := if "json".data.isPrefixOf rest then rest.drop 4 else rest
    let rest3 := rest2.dropWhile isWs
    match indexOfSeq rest3 "```".data with
    | none => none
    | some j => some (rest3.take j)

/-- Length consumed by `[\s\S]*?\}\s*\]` (lazy): scan to the first `}`
that is followed by optional whitespace and `]`. -/
def arrCloseLen : List Char → Option Nat
  | [] => none
  | c :: cs =>
    if c == '}' then
      match cs.dropWhile isWs with
      | ']' :: _ => some (1 + (cs.takeWhile isWs).length + 1)
      | _ => (arrCloseLen cs).map (fun n => n + 1)
    else (arrCloseLen cs).map (fun n => n + 1)

/-- Length of a match of `/\[\s*\{[\s\S]*?\}\s*\]/` at the start of
`s`, if any. -/
def arrMatchLen (s : List Char) : Option Nat :=
  match s with
  | '[' :: rest =>
    (match rest.dropWhile isWs with
     | '{' :: inner => (arrCloseLen inner).map
         (fun m => 1 + (rest.takeWhile isWs).length + 1 + m)
     | _ => none)
  | _ => none

/-- First (leftmost, lazily shortest) match of the array-of-objects
pattern anywhere in the text (source strategy 2). -/
def extractJsonArrayMatch : List Char → Option (List Char)
  | [] => (arrMatchLen []).map (fun len => ([] : List Char).take len)
  | t@(_ :: rest) =>
    match arrMatchLen t with
    | some len => some (t.take len)
    | none => extractJsonArrayMatch rest

/-- Index of the last occurrence of a character (JavaScript
`String.lastIndexOf`). -/
def lastIdxOfChar (t : List Char) (c : Char) : Option Nat :=
  (List.findIdx? (fun x => x == c) t.reverse).map (fun k => t.length - 1 - k)

/-- Source strategy 3: the slice from the first `[` to the last `]`
when the latter lies strictly after the former. -/
def bracketSlice (t : List Char) : Option (List Char) :=
  match List.findIdx? (fun x => x == '[') t, lastIdxOfChar t ']' with
  | some first, some last =>
    if first < last then some ((t.drop first).take (last + 1 - first)) else none
  | _, _ => none

/-- The parse fallback of `generateForContact`: whole text, then code
block (trimmed), then array-pattern match, then bracket slice; the
first parse that succeeds wins, else the descriptive error is thrown. -/
def parseEmailSequence {α : Type} (parse : List Char → Option α)
    (accumulated : List Char) : Except String α :=
  match parse accumulated with
  | some v => Except.ok v
  | none =>
    match (extractCodeBlock accumulated).bind (fun inner => parse (jsTrim inner)) with
    | some v => Except.ok v
    | none =>
      match (extractJsonArrayMatch accumulated).bind parse with
      | some v => Except.ok v
      | none =>
        match (bracketSlice accumulated).bind parse with
        | some v => Except.ok v
        | none => Except.error "Failed to parse email sequence from response"

/-- The candidate texts of the four strategies, in attempt order. -/
def parseCandidates (accumulated : List Char) : List (Option (List Char)) :=
  [some accumulated,
   (extractCodeBlock accumulated).map jsTrim,
   extractJsonArrayMatch accumulated,
   bracketSlice accumulated]

/-- C3: the accumulated model text is interpreted by the ordered
four-strategy fallback — whole text, first fenced code block (trimmed),
first bracketed array-of-objects match, first-`[`-to-last-`]` slice;
the first candidate whose parse succeeds determines the result, and
when every candidate fails a descriptive parse error is thrown. -/
theorem parseEmailSequence_fallback {α : Type} :
    ∀ (parse : List Char → Option α) (accumulated : List Char),
      parseEmailSequence parse accumulated =
        match (parseCandidates accumulated).findSome? (fun c => c.bind parse) with
        | some v => Except.ok v
        | none => Except.error "Failed to parse email sequence from response" := by
  intro parse accumulated
  have hmb : ((extractCodeBlock accumulated).map jsTrim).bind parse =
      (extractCodeBlock accumulated).bind (fun inner => parse (jsTrim inner)) := by
    cases extractCodeBlock accumulated <;> rfl
  have hsb : (some accumulated).bind parse = parse accumulated := rfl
  simp only [parseEmailSequence, parseCandidates, List.findSome?_cons, List.findSome?_nil,
    hsb, hmb]
  cases parse accumulated with
  | some v => rfl
  | none =>
    cases (extractCodeBlock accumulated).bind (fun inner => parse (jsTrim inner)) with
    | some v => rfl
    | none =>
      cases (extractJsonArrayMatch accumulated).bind parse with
      | some v => rfl
      | none =>
        cases (bracketSlice accumulated).bind parse with
        | some v => rfl
        | none => rfl

/-!
Claim C4: the sequential batch loop of `handleGenerate`
(`EmailGenerator.tsx`).  The per-contact generation (network call,
streaming, parsing) is abstracted as a function into `Except`: an
`error` value stands for any exception thrown inside the `try` block.
-/

/-- The `ContactListItem` interface of `types.ts`. -/
structure ContactListItem where
  contact_id : String
  full_name : String
  title : String
  email : String
  persona_match : String
  outreach_priority : Int
deriving DecidableEq, Repr

/-- The per-contact `GenerationStatus` record of `EmailGenerator.tsx`. -/
structure GenStatus where
  contactId : String
  contactName : String
  status : String
  error : Option String
deriving DecidableEq, Repr

/-- JavaScript `Map.set` on an association list: replace in place when
the key exists (a `Map`'s keys are unique), else append. -/
def jsMapSet {β : Type} (m : List (String × β)) (k : String) (v : β) :
    List (String × β) :=
  if m.any (fun kv => kv.1 == k) then
    m.map (fun kv => if kv.1 == k then (k, v) else kv)
  else m ++ [(k, v)]

/-- JavaScript `Map.get` (`none` for `undefined`). -/
def jsMapGet {β : Type} (m : List (String × β)) (k : String) : Option β :=
  (m.find? (fun kv => kv.1 == k)).map Prod.snd

/-- The initial status record of the batch loop:
`{ contactId, contactName, status: 'pending' }`. -/
def initStatus (c : ContactListItem) : GenStatus :=
  ⟨c.contact_id, c.full_name, "pending", none⟩

/-- Source `setStatuses(prev => prev.map(s => s.contactId === id ?
{ ...s, status } : s))`. -/
def setStatusOnly (statuses : List GenStatus) (cid : String) (st : String) :
    List GenStatus :=
  statuses.map (fun s => if s.contactId == cid then { s with status := st } else s)

/-- Source status update carrying an error message. -/
def setStatusErr (statuses : List GenStatus) (cid : String) (st : String)
    (msg : String) : List GenStatus :=
  statuses.map (fun s =>
    if s.contactId == cid then { s with status := st, error := some msg } else s)

/-- The `for (const contact of contacts)` loop of `handleGenerate`:
mark generating, try the generation, record the result, continue. -/
def genLoop {σ : Type} (gen : ContactListItem → Except String σ) :
    List ContactListItem → List (String × σ) → List GenStatus →
      List (String × σ) × List GenStatus
  | [], results, statuses => (results, statuses)
  | c :: rest, results, statuses =>
    let statuses1 := setStatusOnly statuses c.contact_id "generating"
    match gen c with
    | Except.ok emails =>
      genLoop gen rest (jsMapSet results c.contact_id emails)
        (setStatusOnly statuses1 c.contact_id "complete")
    | Except.error msg =>
      genLoop gen rest results (setStatusErr statuses1 c.contact_id "error" msg)

/-- Source `handleGenerate`: statuses initialised to pending for every
contact, results empty, then the sequential loop. -/
def handleGenerate {σ : Type} (gen : ContactListItem → Except String σ)
    (contacts : List ContactListItem) : List (String × σ) × List GenStatus :=
  genLoop gen contacts [] (contacts.map initStatus)

/-- The status record a contact ends the batch with. -/
def finalStatusOf {σ : Type} (gen : ContactListItem → Except String σ)
    (c : ContactListItem) : GenStatus :=
  match gen c with
  | Except.ok _ => ⟨c.contact_id, c.full_name, "complete", none⟩
  | Except.error msg => ⟨c.contact_id, c.full_name, "error", some msg⟩

/-- The results-map entry a contact contributes, if any. -/
def successPairOf {σ : Type} (gen : ContactListItem → Except String σ)
    (c : ContactListItem) : Option (String × σ) :=
  match gen c with
  | Except.ok emails => some (c.contact_id, emails)
  | Except.error _ => none

/-- The composite effect on one status record of processing contact
`c` (set generating, then complete or error). -/
def updOne {σ : Type} (gen : ContactListItem → Except String σ)
    (c : ContactListItem) (s : GenStatus) : GenStatus :=
  if s.contactId == c.contact_id then
    match gen c with
    | Except.ok _ => { s with status := "complete" }
    | Except.error msg => { s with status := "error", error := some msg }
  else s

theorem status_updates_compose_ok {σ : Type} (gen : ContactListItem → Except String σ)
    (c : ContactListItem) (statuses : List GenStatus) (emails : σ)
    (hg : gen c = Except.ok emails) :
    setStatusOnly (setStatusOnly statuses c.contact_id "generating")
      c.contact_id "complete" = statuses.map (updOne gen c) := by
  rw [setStatusOnly, setStatusOnly, List.map_map]
  apply List.map_congr_left
  intro s _
  by_cases h : s.contactId == c.contact_id
  · simp [Function.comp, h, updOne, hg]
  · simp [Function.comp, h, updOne, hg]

theorem status_updates_compose_err {σ : Type} (gen : ContactListItem → Except String σ)
    (c : ContactListItem) (statuses : List GenStatus) (msg : String)
    (hg : gen c = Except.error msg) :
    setStatusErr (setStatusOnly statuses c.contact_id "generating")
      c.contact_id "error" msg = statuses.map (updOne gen c) := by
  rw [setStatusOnly, setStatusErr, List.map_map]
  apply List.map_congr_left
  intro s _
  by_cases h : s.contactId == c.contact_id
  · simp [Function.comp, h, updOne, hg]
  · simp [Function.comp, h, updOne, hg]

theorem jsMapSet_append_of_absent {β : Type} (m : List (String × β)) (k : String)
    (v : β) (h : m.any (fun kv => kv.1 == k) = false) :
    jsMapSet m k v = m ++ [(k, v)] := by
  rw [jsMapSet, h]
  simp

theorem genLoop_spec {σ : Type} (gen : ContactListItem → Except String σ) :
    ∀ (cs : List ContactListItem) (results : List (String × σ))
      (statuses : List GenStatus),
      (∀ c ∈ cs, results.any (fun kv => kv.1 == c.contact_id) = false) →
      (cs.map (fun c => c.contact_id)).Nodup →
      genLoop gen cs results statuses =
        (results ++ cs.filterMap (successPairOf gen),
         cs.foldl (fun S c => S.map (updOne gen c)) statuses) := by
  intro cs
  induction cs with
  | nil => intro results statuses _ _; simp [genLoop]
  | cons c rest ih =>
    intro results statuses hdisj hnodup
    rw [List.map_cons, List.nodup_cons] at hnodup
    cases hg : gen c with
    | ok emails =>
      have hset : jsMapSet results c.contact_id emails = results ++ [(c.contact_id, emails)] :=
        jsMapSet_append_of_absent results c.contact_id emails
          (hdisj c (List.mem_cons_self c rest))
      have hdisj' : ∀ c' ∈ rest,
          (results ++ [(c.contact_id, emails)]).any (fun kv => kv.1 == c'.contact_id) = false := by
        intro c' hc'
        rw [List.any_append]
        have h1 := hdisj c' (List.mem_cons_of_mem c hc')
        have h2 : c.contact_id ≠ c'.contact_id := by
          intro he
          exact hnodup.1 (he ▸ List.mem_map_of_mem (fun x => x.contact_id) hc')
        simp [h1, h2]
      have hrec := ih (results ++ [(c.contact_id, emails)])
        (setStatusOnly (setStatusOnly statuses c.contact_id "generating")
          c.contact_id "complete") hdisj' hnodup.2
      simp only [genLoop, hg]
      rw [hset, hrec, status_updates_compose_ok gen c statuses emails hg]
      simp [List.filterMap_cons, successPairOf, hg, List.append_assoc]
    | error msg =>
      have hdisj' : ∀ c' ∈ rest,
          results.any (fun kv => kv.1 == c'.contact_id) = false :=
        fun c' hc' => hdisj c' (List.mem_cons_of_mem c hc')
      have hrec := ih results
        (setStatusErr (setStatusOnly statuses c.contact_id "generating")
          c.contact_id "error" msg) hdisj' hnodup.2
      simp only [genLoop, hg]
      rw [hrec, status_updates_compose_err gen c statuses msg hg]
      simp [List.filterMap_cons, successPairOf, hg]

theorem foldl_map_upd {σ : Type} (gen : ContactListItem → Except String σ) :
    ∀ (cs : List ContactListItem) (S : List GenStatus),
      cs.foldl (fun S c => S.map (updOne gen c)) S
        = S.map (fun s => cs.foldl (fun s c => updOne gen c s) s) := by
  intro cs
  induction cs with
  | nil => intro S; simp
  | cons c rest ih =>
    intro S
    rw [List.foldl_cons, ih (S.map (updOne gen c)), List.map_map]
    rfl

theorem updOne_preserves_id {σ : Type} (gen : ContactListItem → Except String σ)
    (c : ContactListItem) (s : GenStatus) : (updOne gen c s).contactId = s.contactId := by
  rw [updOne]
  by_cases h : s.contactId == c.contact_id
  · rw [if_pos h]
    cases gen c <;> rfl
  · rw [if_neg h]

theorem foldl_updOne_no_match {σ : Type} (gen : ContactListItem → Except String σ) :
    ∀ (cs : List ContactListItem) (s : GenStatus),
      (∀ c ∈ cs, c.contact_id ≠ s.contactId) →
      cs.foldl (fun s c => updOne gen c s) s = s := by
  intro cs
  induction cs with
  | nil => intro s _; rfl
  | cons c rest ih =>
    intro s hne
    rw [List.foldl_cons]
    have h1 : updOne gen c s = s := by
      rw [updOne, if_neg]
      simp only [beq_iff_eq]
      exact fun he => hne c (List.mem_cons_self c rest) he.symm
    rw [h1]
    exact ih s (fun c' hc' => hne c' (List.mem_cons_of_mem c hc'))

theorem perElemFold_of_mem {σ : Type} (gen : ContactListItem → Except String σ)
    (contacts : List ContactListItem)
    (hnodup : (contacts.map (fun c => c.contact_id)).Nodup)
    (c0 : ContactListItem) (hc0 : c0 ∈ contacts) :
    contacts.foldl (fun s c => updOne gen c s) (initStatus c0) = finalStatusOf gen c0 := by
  obtain ⟨l1, l2, rfl⟩ := List.append_of_mem hc0
  have hmid : ((l1 ++ c0 :: l2).map (fun c => c.contact_id)).Nodup := hnodup
  rw [List.map_append, List.map_cons] at hmid
  have hnm := List.nodup_middle.mp hmid
  rw [List.nodup_cons, List.mem_append] at hnm
  have hne1 : ∀ c ∈ l1, c.contact_id ≠ c0.contact_id := by
    intro c hc he
    exact hnm.1 (Or.inl (he ▸ List.mem_map_of_mem (fun x => x.contact_id) hc))
  have hne2 : ∀ c ∈ l2, c.contact_id ≠ c0.contact_id := by
    intro c hc he
    exact hnm.1 (Or.inr (he ▸ List.mem_map_of_mem (fun x => x.contact_id) hc))
  rw [List.foldl_append]
  rw [foldl_updOne_no_match gen l1 (initStatus c0) (fun c hc => hne1 c hc)]
  rw [List.foldl_cons]
  have hupd : updOne gen c0 (initStatus c0) = finalStatusOf gen c0 := by
    rw [updOne, if_pos (by simp [initStatus])]
    cases hg : gen c0 <;> simp [finalStatusOf, initStatus, hg]
  rw [hupd]
  apply foldl_updOne_no_match
  intro c hc
  have : (finalStatusOf gen c0).contactId = c0.contact_id := by
    rw [finalStatusOf]; cases gen c0 <;> rfl
  rw [this]
  exact hne2 c hc

/-- C4: with distinct contact ids, the batch loop processes every
contact (each ends `complete` or `error` according to its own
generation outcome), the results map holds exactly the successful
contacts in order, and a contact whose generation throws is recorded as
`error` with the thrown message and is absent from the results map —
its failure never stops the loop. -/
theorem handleGenerate_spec {σ : Type} (gen : ContactListItem → Except String σ)
    (contacts : List ContactListItem)
    (hnodup : (contacts.map (fun c => c.contact_id)).Nodup) :
    (handleGenerate gen contacts).1 = contacts.filterMap (successPairOf gen)
    ∧ (handleGenerate gen contacts).2 = contacts.map (finalStatusOf gen)
    ∧ ∀ c ∈ contacts, ∀ msg, gen c = Except.error msg →
        jsMapGet (handleGenerate gen contacts).1 c.contact_id = none
        ∧ (⟨c.contact_id, c.full_name, "error", some msg⟩ : GenStatus)
            ∈ (handleGenerate gen contacts).2 := by
  have hloop := genLoop_spec gen contacts [] (contacts.map initStatus)
    (fun c _ => rfl) hnodup
  have hres : (handleGenerate gen contacts).1 = contacts.filterMap (successPairOf gen) := by
    rw [handleGenerate, hloop]
    rfl
  have hsts : (handleGenerate gen contacts).2 = contacts.map (finalStatusOf gen) := by
    rw [handleGenerate, hloop]
    show contacts.foldl (fun S c => S.map (updOne gen c)) (contacts.map initStatus)
      = contacts.map (finalStatusOf gen)
    rw [foldl_map_upd, List.map_map]
    apply List.map_congr_left
    intro c0 hc0
    exact perElemFold_of_mem gen contacts hnodup c0 hc0
  refine ⟨hres, hsts, ?_⟩
  intro c hc msg hmsg
  constructor
  · rw [hres, jsMapGet]
    have hnone : (contacts.filterMap (successPairOf gen)).find?
        (fun kv => kv.1 == c.contact_id) = none := by
      rw [List.find?_eq_none]
      intro kv hkv
      obtain ⟨c', hc', hc'eq⟩ := List.mem_filterMap.mp hkv
      cases hg : gen c' with
      | ok emails =>
        rw [successPairOf, hg] at hc'eq
        have hkv1 : kv.1 = c'.contact_id := by
          cases hc'eq; rfl
        simp only [hkv1, beq_iff_eq]
        intro he
        have := List.inj_on_of_nodup_map hnodup hc' hc he
        rw [this] at hg
        rw [hg] at hmsg
        exact absurd hmsg (by simp)
      | error m =>
        rw [successPairOf, hg] at hc'eq
        exact absurd hc'eq (by simp)
    rw [hnone]
    rfl
  · rw [hsts]
    have : finalStatusOf gen c = ⟨c.contact_id, c.full_name, "error", some msg⟩ := by
      rw [finalStatusOf, hmsg]
    rw [← this]
    exact List.mem_map_of_mem (finalStatusOf gen) hc

/-- C4 witness contact. -/
def c4ContactA : ContactListItem := ⟨"A", "Alice Smith", "CLO", "a@x.org", "", 1⟩

/-- C4 witness contact whose generation fails. -/
def c4ContactB : ContactListItem := ⟨"B", "Bob Jones", "CIO", "b@x.org", "", 2⟩

/-- C4 witness contact. -/
def c4ContactC : ContactListItem := ⟨"C", "Cara Lee", "CHRO", "c@x.org", "", 3⟩

/-- C4 witness generator: the middle contact's generation throws. -/
def c4Gen : ContactListItem → Except String Nat := fun c =>
  if c.contact_id == "B" then Except.error "upstream failure" else Except.ok 7

theorem handleGenerate_spec_witness :
    (([c4ContactA, c4ContactB, c4ContactC].map (fun c => c.contact_id)).Nodup)
    ∧ ((handleGenerate c4Gen [c4ContactA, c4ContactB, c4ContactC]).1
        = [c4ContactA, c4ContactB, c4ContactC].filterMap (successPairOf c4Gen)
      ∧ (handleGenerate c4Gen [c4ContactA, c4ContactB, c4ContactC]).2
        = [c4ContactA, c4ContactB, c4ContactC].map (finalStatusOf c4Gen)
      ∧ ∀ c ∈ [c4ContactA, c4ContactB, c4ContactC], ∀ msg,
          c4Gen c = Except.error msg →
          jsMapGet (handleGenerate c4Gen [c4ContactA, c4ContactB, c4ContactC]).1
              c.contact_id = none
          ∧ (⟨c.contact_id, c.full_name, "error", some msg⟩ : GenStatus)
              ∈ (handleGenerate c4Gen [c4ContactA, c4ContactB, c4ContactC]).2) :=
  ⟨by decide, handleGenerate_spec c4Gen [c4ContactA, c4ContactB, c4ContactC] (by decide)⟩

/-!
Claim C8: the persistence boundary (`storage.ts`).  `crypto.randomUUID`
and `new Date().toISOString()` are environment inputs, passed as the
`id` and `now` arguments.
-/

/-- The `SaveEmailInput` interface of `storage.ts`. -/
structure SaveEmailInput where
  accountIndex : Int
  accountName : String
  contactId : String
  contactName : String
  contactTitle : String
  emails : List EmailVariant
deriving DecidableEq, Repr

/-- The `SavedEmail` record built by `saveEmail`. -/
structure SavedEmail where
  id : String
  accountIndex : Int
  accountName : String
  contactId : String
  contactName : String
  contactTitle : String
  emails : List EmailVariant
  createdAt : String
  updatedAt : String
deriving DecidableEq, Repr

/-- The `SavedEmailMetadata` projection returned by `listEmails`. -/
structure SavedEmailMetadata where
  id : String
  accountIndex : Int
  accountName : String
  contactId : String
  contactName : String
  contactTitle : String
  emailCount : Nat
  createdAt : String
  updatedAt : String
deriving DecidableEq, Repr

/-- The module-level `emailStore` Map, as an association list in
insertion order. -/
abbrev EmailStore : Type := List (String × SavedEmail)

/-- Source `saveEmail`: build the record with the generated id and
timestamps and `emailStore.set(id, saved)`. -/
def saveEmail (store : EmailStore) (id now : String) (data : SaveEmailInput) :
    SavedEmail × EmailStore :=
  let saved : SavedEmail :=
    { id := id
      accountIndex := data.accountIndex
      accountName := data.accountName
      contactId := data.contactId
      contactName := data.contactName
      contactTitle := data.contactTitle
      emails := data.emails
      createdAt := now
      updatedAt := now }
  (saved, jsMapSet store id saved)

/-- Source `getEmail`: `emailStore.get(id) ?? null`. -/
def getEmail (store : EmailStore) (id : String) : Option SavedEmail :=
  jsMapGet store id

/-- Source `listEmails`: values, optional account filter, metadata
projection. -/
def listEmails (store : EmailStore) (accountIndex : Option Int) :
    List SavedEmailMetadata :=
  let emails : List SavedEmail := store.map Prod.snd
  let filtered : List SavedEmail :=
    match accountIndex with
    | some idx => emails.filter (fun e => e.accountIndex == idx)
    | none => emails
  filtered.map (fun (e : SavedEmail) =>
    { id := e.id
      accountIndex := e.accountIndex
      accountName := e.accountName
      contactId := e.contactId
      contactName := e.contactName
      contactTitle := e.contactTitle
      emailCount := e.emails.length
      createdAt := e.createdAt
      updatedAt := e.updatedAt })

/-- Source `deleteEmail`: `emailStore.delete(id)` returns whether the
key was present and removes its entry (a Map's keys are unique, so
removing every pair with the key coincides). -/
def deleteEmail (store : EmailStore) (id : String) : Bool × EmailStore :=
  (store.any (fun kv => kv.1 == id), store.filter (fun kv => !(kv.1 == id)))

theorem find?_map_replace {β : Type} (m : List (String × β)) (k : String) (v : β)
    (hany : m.any (fun kv => kv.1 == k) = true) :
    (m.map (fun kv => if kv.1 == k then (k, v) else kv)).find?
      (fun kv => kv.1 == k) = some (k, v) := by
  induction m with
  | nil => exact absurd hany (by simp)
  | cons kv rest ih =>
    rw [List.map_cons]
    cases hk : (kv.1 == k) with
    | true =>
      rw [if_pos rfl]
      exact List.find?_cons_of_pos _ (by simp)
    | false =>
      rw [if_neg (by simp)]
      rw [List.find?_cons_of_neg _ (by simp [hk])]
      rw [List.any_cons, hk, Bool.false_or] at hany
      exact ih hany

theorem find?_append_absent {β : Type} (m : List (String × β)) (k : String) (v : β)
    (hany : m.any (fun kv => kv.1 == k) = false) :
    (m ++ [(k, v)]).find? (fun kv => kv.1 == k) = some (k, v) := by
  induction m with
  | nil =>
    rw [List.nil_append]
    exact List.find?_cons_of_pos _ (by simp)
  | cons kv rest ih =>
    rw [List.any_cons, Bool.or_eq_false_iff] at hany
    rw [List.cons_append, List.find?_cons_of_neg _ (by simp [hany.1])]
    exact ih hany.2

theorem jsMapGet_set_self {β : Type} (m : List (String × β)) (k : String) (v : β) :
    jsMapGet (jsMapSet m k v) k = some v := by
  rw [jsMapSet]
  by_cases hany : m.any (fun kv => kv.1 == k) = true
  · rw [if_pos hany, jsMapGet, find?_map_replace m k v hany]
    rfl
  · rw [Bool.not_eq_true] at hany
    rw [if_neg (by simp [hany]), jsMapGet, find?_append_absent m k v hany]
    rfl

theorem getEmail_delete_self (store : EmailStore) (id : String) :
    getEmail (deleteEmail store id).2 id = none := by
  rw [getEmail, deleteEmail, jsMapGet]
  have : (store.filter (fun kv => !(kv.1 == id))).find? (fun kv => kv.1 == id) = none := by
    rw [List.find?_eq_none]
    intro kv hkv
    have := (List.mem_filter.mp hkv).2
    simpa using this
  rw [this]
  rfl

theorem deleteEmail_found (store : EmailStore) (id : String)
    (h : getEmail store id ≠ none) : (deleteEmail store id).1 = true := by
  rw [deleteEmail]
  rw [getEmail, jsMapGet] at h
  cases hf : store.find? (fun kv => kv.1 == id) with
  | none => rw [hf] at h; simp at h
  | some kv =>
    have hmem := List.mem_of_find?_eq_some hf
    have hp := List.find?_some hf
    exact List.any_eq_true.mpr ⟨kv, hmem, hp⟩

theorem jsMapSet_wf (store : EmailStore) (id : String) (saved : SavedEmail)
    (hid : saved.id = id) (hwf : ∀ kv ∈ store, kv.2.id = kv.1) :
    ∀ kv ∈ jsMapSet store id saved, kv.2.id = kv.1 := by
  intro kv hkv
  rw [jsMapSet] at hkv
  by_cases hany : store.any (fun x => x.1 == id) = true
  · rw [if_pos hany] at hkv
    obtain ⟨kv0, hkv0, hkv0eq⟩ := List.mem_map.mp hkv
    by_cases hk : kv0.1 == id
    · rw [if_pos hk] at hkv0eq
      rw [← hkv0eq]
      exact hid
    · rw [if_neg hk] at hkv0eq
      rw [← hkv0eq]
      exact hwf kv0 hkv0
  · rw [if_neg hany] at hkv
    rcases List.mem_append.mp hkv with hkv | hkv
    · exact hwf kv hkv
    · rw [List.mem_singleton.mp hkv]
      exact hid

/-- C8: saving returns the input's fields plus the generated id and
timestamps; reading that id back returns the same record; deleting it
returns true; reading after delete returns none, and listing (with any
filter) after delete contains no metadata record with that id. -/
theorem storage_roundtrip (store : EmailStore)
    (hwf : ∀ kv ∈ store, kv.2.id = kv.1) (id now : String) (data : SaveEmailInput) :
    ((saveEmail store id now data).1.accountIndex = data.accountIndex
      ∧ (saveEmail store id now data).1.accountName = data.accountName
      ∧ (saveEmail store id now data).1.contactId = data.contactId
      ∧ (saveEmail store id now data).1.contactName = data.contactName
      ∧ (saveEmail store id now data).1.contactTitle = data.contactTitle
      ∧ (saveEmail store id now data).1.emails = data.emails
      ∧ (saveEmail store id now data).1.id = id
      ∧ (saveEmail store id now data).1.createdAt = now
      ∧ (saveEmail store id now data).1.updatedAt = now)
    ∧ getEmail (saveEmail store id now data).2 id = some (saveEmail store id now data).1
    ∧ (deleteEmail (saveEmail store id now data).2 id).1 = true
    ∧ getEmail (deleteEmail (saveEmail store id now data).2 id).2 id = none
    ∧ ∀ (filt : Option Int) (m : SavedEmailMetadata),
        m ∈ listEmails (deleteEmail (saveEmail store id now data).2 id).2 filt →
        m.id ≠ id := by
  have hget : getEmail (saveEmail store id now data).2 id
      = some (saveEmail store id now data).1 :=
    jsMapGet_set_self store id _
  refine ⟨⟨rfl, rfl, rfl, rfl, rfl, rfl, rfl, rfl, rfl⟩, hget, ?_, ?_, ?_⟩
  · exact deleteEmail_found _ id (by rw [hget]; simp)
  · exact getEmail_delete_self _ id
  · intro filt m hm
    have hwf1 : ∀ kv ∈ (saveEmail store id now data).2, kv.2.id = kv.1 :=
      jsMapSet_wf store id _ rfl hwf
    have hmem : ∃ e ∈ ((deleteEmail (saveEmail store id now data).2 id).2).map Prod.snd,
        m.id = e.id := by
      rcases filt with _ | idx
      · simp only [listEmails] at hm
        obtain ⟨e, he, heq⟩ := List.mem_map.mp hm
        exact ⟨e, he, by rw [← heq]⟩
      · simp only [listEmails] at hm
        obtain ⟨e, he, heq⟩ := List.mem_map.mp hm
        exact ⟨e, (List.mem_filter.mp he).1, by rw [← heq]⟩
    obtain ⟨e, he, heq⟩ := hmem
    obtain ⟨kv, hkv, hkveq⟩ := List.mem_map.mp he
    rw [deleteEmail] at hkv
    have hkv1 := List.mem_filter.mp hkv
    have hkvne : kv.1 ≠ id := by simpa using hkv1.2
    have : e.id = kv.1 := by rw [← hkveq]; exact hwf1 kv hkv1.1
    rw [heq, this]
    exact hkvne

/-- C8 witness input. -/
def c8Input : SaveEmailInput :=
  { accountIndex := 7
    accountName := "General Hospital"
    contactId := "JOHN-A"
    contactName := "John Doe"
    contactTitle := "CLO"
    emails := [⟨"007-A-E1", 1, "Hello", "body text", 150, "timing"⟩] }

theorem storage_roundtrip_witness :
    (∀ kv ∈ ([] : EmailStore), kv.2.id = kv.1)
    ∧ (((saveEmail [] "id-1" "2026-01-01T00:00:00Z" c8Input).1.accountIndex
          = c8Input.accountIndex
      ∧ (saveEmail [] "id-1" "2026-01-01T00:00:00Z" c8Input).1.accountName
          = c8Input.accountName
      ∧ (saveEmail [] "id-1" "2026-01-01T00:00:00Z" c8Input).1.contactId
          = c8Input.contactId
      ∧ (saveEmail [] "id-1" "2026-01-01T00:00:00Z" c8Input).1.contactName
          = c8Input.contactName
      ∧ (saveEmail [] "id-1" "2026-01-01T00:00:00Z" c8Input).1.contactTitle
          = c8Input.contactTitle
      ∧ (saveEmail [] "id-1" "2026-01-01T00:00:00Z" c8Input).1.emails = c8Input.emails
      ∧ (saveEmail [] "id-1" "2026-01-01T00:00:00Z" c8Input).1.id = "id-1"
      ∧ (saveEmail [] "id-1" "2026-01-01T00:00:00Z" c8Input).1.createdAt
          = "2026-01-01T00:00:00Z"
      ∧ (saveEmail [] "id-1" "2026-01-01T00:00:00Z" c8Input).1.updatedAt
          = "2026-01-01T00:00:00Z")
    ∧ getEmail (saveEmail [] "id-1" "2026-01-01T00:00:00Z" c8Input).2 "id-1"
        = some (saveEmail [] "id-1" "2026-01-01T00:00:00Z" c8Input).1
    ∧ (deleteEmail (saveEmail [] "id-1" "2026-01-01T00:00:00Z" c8Input).2 "id-1").1 = true
    ∧ getEmail (deleteEmail (saveEmail [] "id-1" "2026-01-01T00:00:00Z" c8Input).2
        "id-1").2 "id-1" = none
    ∧ ∀ (filt : Option Int) (m : SavedEmailMetadata),
        m ∈ listEmails (deleteEmail
          (saveEmail [] "id-1" "2026-01-01T00:00:00Z" c8Input).2 "id-1").2 filt →
        m.id ≠ "id-1") :=
  ⟨fun kv hkv => absurd hkv (List.not_mem_nil kv),
   storage_roundtrip [] (fun kv hkv => absurd hkv (List.not_mem_nil kv))
     "id-1" "2026-01-01T00:00:00Z" c8Input⟩

/-!
Claim C9: the contact ranking/selection policy of
`ContactSelector.tsx`.  JavaScript `Array.prototype.sort` is a stable
sort by a consistent comparator; its output is modelled by the stable
`List.mergeSort` under `compare(a, b) <= 0`.
-/

/-- Source `EXCLUDED_KEYWORDS`. -/
def EXCLUDED_KEYWORDS : List String :=
  ["CEO", "Chief Executive",
   "CMO", "Chief Medical Officer",
   "CFO", "Chief Financial",
   "COO", "Chief Operating",
   "CMIO", "Chief Medical Information",
   "CNO", "Chief Nursing",
   "Epic Trainer", "Credentialed Trainer", "Training Specialist", "EHR Trainer"]

/-- Source `TIER_1_KEYWORDS` (CLO). -/
def TIER_1_KEYWORDS : List String := ["CLO", "Chief Learning", "VP Learning", "VP L&D"]

/-- Source `TIER_2_KEYWORDS` (CIO). -/
def TIER_2_KEYWORDS : List String := ["CIO", "Chief Information Officer", "Chief Digital"]

/-- Source `TIER_3_KEYWORDS` (CHRO). -/
def TIER_3_KEYWORDS : List String := ["CHRO", "Chief Human Resources", "Chief People", "CPO"]

/-- Source `TIER_4_KEYWORDS` (L&D directors). -/
def TIER_4_KEYWORDS : List String :=
  ["Director of Learning", "Director of Training", "Director of L&D",
   "Director of Education", "Director of Clinical Education",
   "VP Education", "VP Training", "Director of Workforce"]

/-- Source `ALL_PRIORITY_KEYWORDS`. -/
def ALL_PRIORITY_KEYWORDS : List String :=
  TIER_1_KEYWORDS ++ TIER_2_KEYWORDS ++ TIER_3_KEYWORDS ++ TIER_4_KEYWORDS

/-- Source `isExcluded`: keyword search over the lower-cased
`title persona_match` concatenation. -/
def isExcluded (c : ContactListItem) : Bool :=
  let combined := lower (c.title ++ " " ++ c.persona_match).data
  EXCLUDED_KEYWORDS.any (fun kw => jsIncludes combined (lower kw.data))

/-- Source `getPriorityTier`: excluded contacts have no tier, else the
first tier whose keywords match the lower-cased title, else tier 5. -/
def getPriorityTier (c : ContactListItem) : Option Nat :=
  if isExcluded c then none
  else
    let title := lower c.title.data
    if TIER_1_KEYWORDS.any (fun kw => jsIncludes title (lower kw.data)) then some 1
    else if TIER_2_KEYWORDS.any (fun kw => jsIncludes title (lower kw.data)) then some 2
    else if TIER_3_KEYWORDS.any (fun kw => jsIncludes title (lower kw.data)) then some 3
    else if TIER_4_KEYWORDS.any (fun kw => jsIncludes title (lower kw.data)) then some 4
    else some 5

/-- Source `shouldAutoSelect`. -/
def shouldAutoSelect (c : ContactListItem) : Bool :=
  if isExcluded c then false
  else
    let combined := lower (c.title ++ " " ++ c.persona_match).data
    ALL_PRIORITY_KEYWORDS.any (fun kw => jsIncludes combined (lower kw.data))

/-- Source `getAutoSelectedIds`. -/
def getAutoSelectedIds (contacts : List ContactListItem) : List String :=
  (contacts.filter shouldAutoSelect).map (fun c => c.contact_id)

/-- Source comparator of `sortContacts`. -/
def cmpContacts (a b : ContactListItem) : Int :=
  match getPriorityTier a, getPriorityTier b with
  | none, none => 0
  | none, some _ => 1
  | some _, none => -1
  | some ta, some tb =>
    if ta ≠ tb then (ta : Int) - (tb : Int)
    else a.outreach_priority - b.outreach_priority

/-- The Boolean order induced by the comparator. -/
def leContacts (a b : ContactListItem) : Bool := decide (cmpContacts a b ≤ 0)

/-- Source `sortContacts` (stable sort by the comparator). -/
def sortContacts (contacts : List ContactListItem) : List ContactListItem :=
  contacts.mergeSort leContacts

/-- The tier used for comparisons, with excluded contacts past every
real tier. -/
def tierVal (c : ContactListItem) : Nat :=
  match getPriorityTier c with
  | none => 6
  | some t => t

theorem getPriorityTier_lt_six (c : ContactListItem) (t : Nat)
    (h : getPriorityTier c = some t) : t < 6 := by
  simp only [getPriorityTier] at h
  split at h
  · exact absurd h (by simp)
  · split at h
    · simp at h; omega
    · split at h
      · simp at h; omega
      · split at h
        · simp at h; omega
        · split at h
          · simp at h; omega
          · simp at h; omega

theorem getPriorityTier_of_excluded (c : ContactListItem) (h : isExcluded c = true) :
    getPriorityTier c = none := by
  simp [getPriorityTier, h]

theorem getPriorityTier_of_not_excluded (c : ContactListItem)
    (h : isExcluded c = false) : ∃ t, getPriorityTier c = some t ∧ t < 6 := by
  simp only [getPriorityTier, h, Bool.false_eq_true, if_false]
  split
  · exact ⟨1, rfl, by omega⟩
  · split
    · exact ⟨2, rfl, by omega⟩
    · split
      · exact ⟨3, rfl, by omega⟩
      · split
        · exact ⟨4, rfl, by omega⟩
        · exact ⟨5, rfl, by omega⟩

theorem tierVal_of_excluded (c : ContactListItem) (h : isExcluded c = true) :
    tierVal c = 6 := by
  rw [tierVal, getPriorityTier_of_excluded c h]

theorem tierVal_lt_of_not_excluded (c : ContactListItem) (h : isExcluded c = false) :
    tierVal c < 6 := by
  obtain ⟨t, ht, hlt⟩ := getPriorityTier_of_not_excluded c h
  rw [tierVal, ht]
  exact hlt

theorem tierVal_of_some (c : ContactListItem) (t : Nat) (h : getPriorityTier c = some t) :
    tierVal c = t := by
  rw [tierVal, h]

theorem cmpContacts_le_char (a b : ContactListItem) :
    cmpContacts a b ≤ 0 ↔
      (tierVal a < tierVal b
       ∨ (tierVal a = tierVal b
          ∧ (tierVal a = 6 ∨ a.outreach_priority ≤ b.outreach_priority))) := by
  cases ha : getPriorityTier a with
  | none =>
    cases hb : getPriorityTier b with
    | none => simp [cmpContacts, tierVal, ha, hb]
    | some tb =>
      have htb := getPriorityTier_lt_six b tb hb
      simp only [cmpContacts, tierVal, ha, hb]
      omega
  | some ta =>
    have hta := getPriorityTier_lt_six a ta ha
    cases hb : getPriorityTier b with
    | none =>
      simp only [cmpContacts, tierVal, ha, hb]
      omega
    | some tb =>
      have htb := getPriorityTier_lt_six b tb hb
      simp only [cmpContacts, tierVal, ha, hb]
      split
      · omega
      · omega

theorem leContacts_trans (a b c : ContactListItem)
    (hab : leContacts a b) (hbc : leContacts b c) : leContacts a c := by
  rw [leContacts, decide_eq_true_iff] at hab hbc ⊢
  rw [cmpContacts_le_char] at hab hbc ⊢
  omega

theorem leContacts_total (a b : ContactListItem) :
    leContacts a b || leContacts b a := by
  rw [leContacts, leContacts]
  rw [Bool.or_eq_true, decide_eq_true_iff, decide_eq_true_iff,
    cmpContacts_le_char, cmpContacts_le_char]
  omega

theorem sortContacts_pairwise (l : List ContactListItem) :
    (sortContacts l).Pairwise (fun a b => leContacts a b = true) := by
  have h := List.sorted_mergeSort leContacts_trans leContacts_total l
  exact h

theorem jsIncludes_eq_true_iff (hay sub : List Char) :
    jsIncludes hay sub = true ↔ sub <:+: hay := by
  induction hay with
  | nil =>
    rw [jsIncludes]
    simp [List.isPrefixOf_iff_prefix]
  | cons c cs ih =>
    rw [jsIncludes]
    simp only [Bool.or_eq_true, List.isPrefixOf_iff_prefix, ih, List.infix_cons_iff]

theorem lower_title_infix_combined (c : ContactListItem) (sub : List Char)
    (hsub : sub <:+: lower c.title.data) :
    sub <:+: lower (c.title ++ " " ++ c.persona_match).data := by
  have : lower (c.title ++ " " ++ c.persona_match).data
      = lower c.title.data ++ lower (" " ++ c.persona_match).data := by
    rw [String.data_append, String.data_append]
    simp [lower]
  rw [this]
  exact hsub.trans (List.prefix_append _ _).isInfix

/-- C9: a contact whose title contains "CEO" is excluded, never
auto-selected, and (with distinct contact ids) its id never appears in
the auto-selected ids; every excluded contact sorts after every
non-excluded one; a contact titled exactly "Director of Clinical
Education" (and not excluded via its persona) is tier 4, is
auto-selected whenever present, and sorts before any same-tier contact
with a numerically larger stored outreach priority. -/
theorem contactRanking_spec :
    (∀ (l : List ContactListItem) (c : ContactListItem),
      jsIncludes c.title.data "CEO".data = true →
      isExcluded c = true
      ∧ shouldAutoSelect c = false
      ∧ (c ∈ l → (l.map (fun x => x.contact_id)).Nodup →
          c.contact_id ∉ getAutoSelectedIds l))
    ∧ (∀ (l : List ContactListItem) (i j : Fin (sortContacts l).length),
        isExcluded ((sortContacts l).get i) = true →
        isExcluded ((sortContacts l).get j) = false → (j : Nat) < (i : Nat))
    ∧ (∀ (l : List ContactListItem) (d : ContactListItem),
        d.title = "Director of Clinical Education" → isExcluded d = false →
        getPriorityTier d = some 4
        ∧ (d ∈ l → d.contact_id ∈ getAutoSelectedIds l)
        ∧ ∀ (i j : Fin (sortContacts l).length),
            (sortContacts l).get i = d →
            getPriorityTier ((sortContacts l).get j) = some 4 →
            d.outreach_priority < ((sortContacts l).get j).outreach_priority →
            (i : Nat) < (j : Nat)) := by
  refine ⟨?_, ?_, ?_⟩
  · intro l c hceo
    have hinfix : "CEO".data <:+: c.title.data := (jsIncludes_eq_true_iff _ _).mp hceo
    have hlow : "ceo".data <:+: lower c.title.data := by
      have := hinfix.map Char.toLower
      simpa [lower] using this
    have hcomb : "ceo".data <:+: lower (c.title ++ " " ++ c.persona_match).data :=
      lower_title_infix_combined c _ hlow
    have hexcl : isExcluded c = true := by
      simp only [isExcluded]
      refine List.any_eq_true.mpr ⟨"CEO", by simp [EXCLUDED_KEYWORDS], ?_⟩
      rw [show lower "CEO".data = "ceo".data from rfl]
      exact (jsIncludes_eq_true_iff _ _).mpr hcomb
    have hsel : shouldAutoSelect c = false := by
      simp [shouldAutoSelect, hexcl]
    refine ⟨hexcl, hsel, ?_⟩
    intro hcl hnodup hmem
    obtain ⟨c', hc'f, hc'id⟩ := List.mem_map.mp hmem
    have hc'l := (List.mem_filter.mp hc'f).1
    have hc'sel := (List.mem_filter.mp hc'f).2
    have : c' = c := List.inj_on_of_nodup_map hnodup hc'l hcl hc'id
    rw [this, hsel] at hc'sel
    exact absurd hc'sel (by simp)
  · intro l i j hi hj
    have hpair := (List.pairwise_iff_get.mp (sortContacts_pairwise l))
    by_contra hij
    have hne : (i : Nat) ≠ (j : Nat) := by
      intro he
      have : i = j := Fin.ext he
      rw [this, hj] at hi
      exact absurd hi (by simp)
    have hlt : (i : Nat) < (j : Nat) := by omega
    have hle := hpair i j hlt
    rw [leContacts, decide_eq_true_iff, cmpContacts_le_char] at hle
    have h6 := tierVal_of_excluded _ hi
    have hlt6 := tierVal_lt_of_not_excluded _ hj
    omega
  · intro l d htitle hexcl
    have htier : getPriorityTier d = some 4 := by
      simp only [getPriorityTier, hexcl, Bool.false_eq_true, if_false, htitle]
      decide
    have hsel : shouldAutoSelect d = true := by
      simp only [shouldAutoSelect, hexcl, Bool.false_eq_true, if_false]
      refine List.any_eq_true.mpr ⟨"Director of Clinical Education",
        by simp [ALL_PRIORITY_KEYWORDS, TIER_1_KEYWORDS, TIER_2_KEYWORDS,
          TIER_3_KEYWORDS, TIER_4_KEYWORDS], ?_⟩
      rw [jsIncludes_eq_true_iff]
      apply lower_title_infix_combined d
      rw [htitle]
    refine ⟨htier, ?_, ?_⟩
    · intro hdl
      exact List.mem_map_of_mem (fun c => c.contact_id)
        (List.mem_filter.mpr ⟨hdl, hsel⟩)
    · intro i j hid htj hpri
      have hpair := (List.pairwise_iff_get.mp (sortContacts_pairwise l))
      by_contra hij
      have hne : (j : Nat) ≠ (i : Nat) := by
        intro he
        have : j = i := Fin.ext he
        rw [this, hid] at htj
        rw [this, hid] at hpri
        omega
      have hlt : (j : Nat) < (i : Nat) := by omega
      have hle := hpair j i hlt
      rw [leContacts, decide_eq_true_iff, cmpContacts_le_char] at hle
      have htvj := tierVal_of_some _ _ htj
      have htvd : tierVal d = 4 := tierVal_of_some _ _ htier
      rw [hid] at hle
      omega

/-- C9 witness: a CEO-titled contact. -/
def ceoContact : ContactListItem := ⟨"X", "Xavier Quinn", "CEO", "x@h.org", "", 1⟩

/-- C9 witness: the Director of Clinical Education. -/
def dirContact : ContactListItem :=
  ⟨"D", "Dana Reyes", "Director of Clinical Education", "d@h.org", "", 2⟩

/-- C9 witness: another tier-4 contact with larger stored priority. -/
def othContact : ContactListItem :=
  ⟨"O", "Omar Velez", "Director of Education", "o@h.org", "", 5⟩

theorem contactRanking_spec_witness :
    (jsIncludes ceoContact.title.data "CEO".data = true
      ∧ isExcluded ceoContact = true
      ∧ shouldAutoSelect ceoContact = false
      ∧ (ceoContact ∈ [othContact, ceoContact, dirContact] →
          ([othContact, ceoContact, dirContact].map (fun x => x.contact_id)).Nodup →
          ceoContact.contact_id ∉ getAutoSelectedIds [othContact, ceoContact, dirContact]))
    ∧ (dirContact.title = "Director of Clinical Education"
      ∧ isExcluded dirContact = false
      ∧ getPriorityTier dirContact = some 4
      ∧ (dirContact ∈ [othContact, ceoContact, dirContact] →
          dirContact.contact_id ∈ getAutoSelectedIds [othContact, ceoContact, dirContact])) := by
  have h1 := contactRanking_spec.1 [othContact, ceoContact, dirContact] ceoContact (by decide)
  have h3 := contactRanking_spec.2.2 [othContact, ceoContact, dirContact] dirContact rfl
    (by decide)
  exact ⟨⟨by decide, h1.1, h1.2.1, h1.2.2⟩, ⟨rfl, by decide, h3.1, h3.2.1⟩⟩

end ABM
